import Mathlib

/-!
The streaming coordinator of scrapmagnet (`bittorrent.go`).

A shallow embedding of the per-file scheduler (`TorrentFileInfo`), of the
per-torrent connection watcher (`BitTorrent.onTorrentAdded`) and of the two alert
handlers that keep the `paused` flag, with the properties the specification states
about them.

Conventions of the embedding.

* Go `int` / `int64` values are `Int`.  Byte offsets, sizes and piece indices
  are torrent quantities far below `2^53`, so neither the `int64` additions nor
  the `float64` round trip of `math.Min` lose anything; `math.Min` on two
  converted ints is `min`.  Go's `/` on integers truncates: `Int.tdiv`.
* The swarm handle (`libtorrent.Torrent_handle`) is an external collaborator.
  Its observable state is the piece-priority map, the piece-deadline map and
  the trace of calls made on it.  The answers of `Have_piece` come from an
  availability oracle `avail t i` (piece `i` at clock tick `t`); one tick is
  one `time.Sleep(100 * time.Millisecond)`.
* `getLookAhead` multiplies in `float32`; the two truncated products are taken
  as functions of `TotalPieces` supplied by the context (`LookAhead`).
* Loops that may not terminate (the polling loop) take fuel and return
  `none` when it runs out.
-/

namespace ScrapMagnet

/-! ## The swarm handle -/

/-- One call on the swarm handle, with its answer when it has one. -/
inductive Call where
  | Have_piece (idx : Int) (answer : Bool)
  | Piece_priority_query (idx : Int) (answer : Int)
  | Piece_priority (idx : Int) (prio : Int)
  | Set_piece_deadline (idx : Int) (ms : Int) (flags : Int)
  | Clear_piece_deadlines
  deriving DecidableEq, Repr

/-- Availability oracle: `avail t i` is what `Have_piece(i)` answers at tick `t`. -/
abbrev Avail := Nat → Int → Bool

/-- Observable state of the swarm handle. -/
structure Swarm where
  priority : Int → Int
  deadline : Int → Option Int
  clock : Nat
  calls : List Call

/-- Point update of a map over piece indices. -/
def setAt {α : Type} (m : Int → α) (i : Int) (v : α) : Int → α :=
  fun j => if j = i then v else m j

namespace Swarm

/-- The call `handle.Have_piece(i)`. -/
def Have_piece (avail : Avail) (s : Swarm) (i : Int) : Bool × Swarm :=
  (avail s.clock i, { s with calls := s.calls ++ [Call.Have_piece i (avail s.clock i)] })

/-- The call `handle.Piece_priority(i)` (the one-argument overload, a query). -/
def Piece_priority_query (s : Swarm) (i : Int) : Int × Swarm :=
  (s.priority i, { s with calls := s.calls ++ [Call.Piece_priority_query i (s.priority i)] })

/-- The call `handle.Piece_priority(i, p)` (the two-argument overload, a write). -/
def Piece_priority (s : Swarm) (i : Int) (p : Int) : Swarm :=
  { s with priority := setAt s.priority i p, calls := s.calls ++ [Call.Piece_priority i p] }

/-- The call `handle.Set_piece_deadline(i, ms, flags)`. -/
def Set_piece_deadline (s : Swarm) (i : Int) (ms : Int) (flags : Int) : Swarm :=
  { s with deadline := setAt s.deadline i (some ms),
           calls := s.calls ++ [Call.Set_piece_deadline i ms flags] }

/-- The call `handle.Clear_piece_deadlines()`. -/
def Clear_piece_deadlines (s : Swarm) : Swarm :=
  { s with deadline := fun _ => none, calls := s.calls ++ [Call.Clear_piece_deadlines] }

/-- One `time.Sleep(100 * time.Millisecond)`: the clock advances by one tick. -/
def Sleep (s : Swarm) : Swarm :=
  { s with clock := s.clock + 1 }

end Swarm

/-! ## Loops -/

/-- The loop `for i := i0; cond(i); i++ { s = body(i, s) }`, run for at most `fuel`
iterations. -/
def forLoop {σ : Type} (cond : Int → Bool) (body : Int → σ → σ) : Nat → Int → σ → σ
  | 0, _, s => s
  | fuel + 1, i, s => if cond i then forLoop cond body fuel (i + 1) (body i s) else s

/-- Number of iterations of `for i := lo; i <= hi; i++`. -/
def span (lo hi : Int) : Nat := (hi + 1 - lo).toNat

/-! ## TorrentFileInfo -/

/-- The backing `os.File`: its bytes and the current position. -/
structure OsFile where
  content : List Nat
  pos : Nat

/-- The struct `TorrentFileInfo`. -/
structure TorrentFileInfo where
  Path : String
  Size : Int
  CompletePieces : Int
  TotalPieces : Int
  PieceMap : List String
  offset : Int
  pieceLength : Int
  startPiece : Int
  endPiece : Int
  file : Option OsFile
  bytesRead : Int

/-- The two truncated `float32` products of `getLookAhead`, as functions of
`TotalPieces`: `initial n = int(float32(n) * lookAhead[infoHash])` and
`running n = int(float32(n) * 0.005)`. -/
structure LookAhead where
  initial : Int → Int
  running : Int → Int

namespace TorrentFileInfo

/-- The method `GetPieceIndexFromOffset`. -/
def GetPieceIndexFromOffset (tfi : TorrentFileInfo) (offset : Int) : Int :=
  Int.tdiv (tfi.offset + offset) tfi.pieceLength

/-- The method `getLookAhead`. -/
def getLookAhead (la : LookAhead) (tfi : TorrentFileInfo) (initial : Bool) : Int :=
  if initial then la.initial tfi.TotalPieces else la.running tfi.TotalPieces

/-- The method `GetCompletePieces`. -/
def GetCompletePieces (avail : Avail) (tfi : TorrentFileInfo) (s : Swarm) : Int × Swarm :=
  forLoop (fun i => decide (i ≤ tfi.endPiece))
    (fun i acc =>
      let r := acc.2.Have_piece avail i
      if r.1 then (acc.1 + 1, r.2) else (acc.1, r.2))
    (span tfi.startPiece tfi.endPiece) tfi.startPiece (0, s)

/-- The statement `result[k] += str` on a slice of rows. -/
def appendRow (rows : List String) (k : Int) (str : String) : List String :=
  rows.set k.toNat (rows.getD k.toNat "" ++ str)

/-- The method `GetPieceMap`. -/
def GetPieceMap (avail : Avail) (tfi : TorrentFileInfo) (s : Swarm) : List String × Swarm :=
  let totalRows := Int.tdiv tfi.TotalPieces 100
  let totalRows := if Int.tmod tfi.TotalPieces 100 ≠ 0 then totalRows + 1 else totalRows
  forLoop (fun i => decide (i ≤ tfi.endPiece))
    (fun i acc =>
      let r := acc.2.Have_piece avail i
      if r.1 then
        (appendRow acc.1 (Int.tdiv (i - tfi.startPiece) 100) "*", r.2)
      else
        let q := r.2.Piece_priority_query i
        (appendRow acc.1 (Int.tdiv (i - tfi.startPiece) 100) (toString q.1), q.2))
    (span tfi.startPiece tfi.endPiece) tfi.startPiece
    (List.replicate totalRows.toNat "", s)

end TorrentFileInfo

open TorrentFileInfo in
/-- The constructor `NewTorrentFileInfo`. -/
def NewTorrentFileInfo (avail : Avail) (path : String) (size : Int) (offset : Int)
    (pieceLength : Int) (s : Swarm) : TorrentFileInfo × Swarm :=
  let result : TorrentFileInfo :=
    { Path := path, Size := size, CompletePieces := 0, TotalPieces := 0, PieceMap := [],
      offset := offset, pieceLength := pieceLength, startPiece := 0, endPiece := 0,
      file := none, bytesRead := 0 }
  let result := { result with startPiece := result.GetPieceIndexFromOffset 0 }
  let result := { result with endPiece := result.GetPieceIndexFromOffset size }
  let c := result.GetCompletePieces avail s
  let result := { result with CompletePieces := c.1 }
  let result := { result with TotalPieces := 1 + result.endPiece - result.startPiece }
  let m := result.GetPieceMap avail c.2
  ({ result with PieceMap := m.1 }, m.2)

namespace TorrentFileInfo

/-- The method `SetInitialPriority`. -/
def SetInitialPriority (la : LookAhead) (tfi : TorrentFileInfo) (s : Swarm) : Swarm :=
  let start := tfi.startPiece
  let «end» := min (start + tfi.getLookAhead la true) tfi.endPiece
  let s := forLoop (fun i => decide (i ≤ «end»))
    (fun i s => s.Set_piece_deadline i 10000 0) (span start «end») start s
  s.Set_piece_deadline tfi.endPiece 10000 0

/-- The first loop of `IsVideoReady`, which returns `false` from inside:
`some false` is that early return, `none` is the loop running to its end. -/
def IsVideoReady.scan (avail : Avail) (hi : Int) : Nat → Int → Swarm → Option Bool × Swarm
  | 0, _, s => (none, s)
  | fuel + 1, i, s =>
    if i ≤ hi then
      let r := s.Have_piece avail i
      if !r.1 then (some false, r.2) else IsVideoReady.scan avail hi fuel (i + 1) r.2
    else (none, s)

/-- The method `IsVideoReady`. -/
def IsVideoReady (avail : Avail) (la : LookAhead) (tfi : TorrentFileInfo) (s : Swarm) :
    Bool × Swarm :=
  let start := tfi.startPiece
  let «end» := min (start + tfi.getLookAhead la true) tfi.endPiece
  match IsVideoReady.scan avail «end» (span start «end») start s with
  | (some b, s) => (b, s)
  | (none, s) =>
    let r := s.Have_piece avail tfi.endPiece
    if !r.1 then (false, r.2) else (true, r.2)

/-- The polling loop at the end of `waitForPiece`: sleep 100 ms, ask `Have_piece`,
leave when it answers `true`.  The flag tells whether the loop was left (`true`) or
is still polling when the fuel ran out (`false`); the state is the one reached. -/
def waitForPiece.poll (avail : Avail) (pieceIndex : Int) : Nat → Swarm → Bool × Swarm
  | 0, s => (false, s)
  | fuel + 1, s =>
    let r := s.Sleep.Have_piece avail pieceIndex
    if r.1 then (true, r.2) else waitForPiece.poll avail pieceIndex fuel r.2

/-- The directives of the time-critical branch of `waitForPiece`. -/
def waitForPiece.critical (la : LookAhead) (tfi : TorrentFileInfo) (pieceIndex : Int)
    (s : Swarm) : Swarm :=
  let s := s.Clear_piece_deadlines
  forLoop (fun i => decide (i ≤ tfi.getLookAhead la false) && decide (i + pieceIndex ≤ tfi.endPiece))
    (fun i s => s.Set_piece_deadline (pieceIndex + i) (3000 + i * 1000) 0)
    (span 0 (tfi.getLookAhead la false)) 0 s

/-- The priority writes of the sequential branch of `waitForPiece`. -/
def waitForPiece.sequential (la : LookAhead) (tfi : TorrentFileInfo) (pieceIndex : Int)
    (s : Swarm) : Swarm :=
  let s := forLoop (fun i => decide (i < tfi.endPiece))
    (fun i s => s.Piece_priority i 1) (span tfi.startPiece (tfi.endPiece - 1)) tfi.startPiece s
  forLoop (fun i => decide (i ≤ tfi.getLookAhead la false * 4) && decide (i + pieceIndex ≤ tfi.endPiece))
    (fun i s => s.Piece_priority (pieceIndex + i) 7)
    (span 0 (tfi.getLookAhead la false * 4)) 0 s

/-- The method `waitForPiece`; `fuel` bounds the polling loop.  The first component
is the returned value (`some false`: the method always returns `false`), or `none`
while the method is still polling; the second is the state of the handle. -/
def waitForPiece (avail : Avail) (la : LookAhead) (fuel : Nat) (tfi : TorrentFileInfo)
    (s : Swarm) (pieceIndex : Int) (timeCritical : Bool) : Option Bool × Swarm :=
  let r := s.Have_piece avail pieceIndex
  if !r.1 then
    let s := if timeCritical then waitForPiece.critical la tfi pieceIndex r.2
             else waitForPiece.sequential la tfi pieceIndex r.2
    let s := tfi.SetInitialPriority la s
    let p := waitForPiece.poll avail pieceIndex fuel s
    (if p.1 then some false else none, p.2)
  else (some false, r.2)

end TorrentFileInfo

/-! ## Read -/

/-- The struct `TorrentConnectionInfo` without its channel, whose traffic is the
event stream of the watcher below. -/
structure TorrentConnectionInfo where
  ConnectionCount : Int
  Served : Bool
  paused : Bool

/-- The constructor `NewTorrentConnectionInfo`. -/
def NewTorrentConnectionInfo : TorrentConnectionInfo :=
  { ConnectionCount := 0, Served := false, paused := false }

/-- What a reader shares with the rest of the process: the swarm handle, the
connection record of the torrent, the log lines and the analytics events. -/
structure World where
  swarm : Swarm
  info : TorrentConnectionInfo
  logs : List String
  events : List String

namespace OsFile

/-- The call `file.Seek(0, os.SEEK_CUR)`: the current position; `0` (with an error
the caller drops) on a nil file. -/
def SeekCur (file : Option OsFile) : Int :=
  match file with
  | none => 0
  | some f => f.pos

/-- The call `file.Read(tmpData)` on a regular file with `len(tmpData) = readSize`:
the bytes read, whether the error is non-nil (end of file, or a nil file), and the
file after. -/
def Read (file : Option OsFile) (readSize : Int) : List Nat × Bool × Option OsFile :=
  match file with
  | none => ([], true, none)
  | some f =>
    if f.content.length ≤ f.pos then ([], true, some f)
    else
      let bytes := (f.content.drop f.pos).take readSize.toNat
      (bytes, false, some { f with pos := f.pos + bytes.length })

end OsFile

/-- What `Read` hands back: the bytes copied into `data` (its first `totalRead`
positions), the count, whether the error is non-nil, and the state after. -/
structure ReadResult where
  data : List Nat
  totalRead : Int
  failed : Bool
  tfi : TorrentFileInfo
  world : World

namespace TorrentFileInfo

/-- The loop `for size > 0` of `Read`.  `inl` is the early `return totalRead, err`,
`inr` is the loop running to its end; `none` is fuel running out, of this loop or of
the polling loop inside `waitForPiece`. -/
def Read.loop (avail : Avail) (la : LookAhead) (pollFuel : Nat) :
    Nat → TorrentFileInfo → Swarm → List Nat → Int → Int →
      Option ((List Nat × Int × TorrentFileInfo × Swarm) ⊕
              (List Nat × Int × TorrentFileInfo × Swarm))
  | 0, _, _, _, _, _ => none
  | fuel + 1, tfi, s, data, totalRead, size =>
    if size > 0 then
      let readSize := min size tfi.pieceLength
      let currentPosition := OsFile.SeekCur tfi.file
      let pieceIndex := tfi.GetPieceIndexFromOffset (currentPosition + readSize)
      match tfi.waitForPiece avail la pollFuel s pieceIndex false with
      | (none, _) => none
      | (some _, s) =>
        let r := OsFile.Read tfi.file readSize
        let tfi := { tfi with file := r.2.2 }
        if r.2.1 then
          some (Sum.inl (data, totalRead + r.1.length, tfi, s))
        else
          Read.loop avail la pollFuel fuel tfi s (data ++ r.1) (totalRead + r.1.length)
            (size - r.1.length)
    else some (Sum.inr (data, totalRead, tfi, s))

/-- The method `Read`, for a buffer of `n` bytes.  Every round of its loop reads at
least one byte or returns, so `n + 1` rounds of fuel are enough. -/
def Read (avail : Avail) (la : LookAhead) (pollFuel : Nat) (tfi : TorrentFileInfo)
    (w : World) (n : Nat) : Option ReadResult :=
  match Read.loop avail la pollFuel (n + 1) tfi w.swarm [] 0 n with
  | none => none
  | some (Sum.inl (data, totalRead, tfi, s)) =>
    some { data := data, totalRead := totalRead, failed := true, tfi := tfi,
           world := { w with swarm := s } }
  | some (Sum.inr (data, totalRead, tfi, s)) =>
    let tfi := { tfi with bytesRead := tfi.bytesRead + totalRead }
    let w := { w with swarm := s }
    if tfi.bytesRead > 10 * 1024 * 1024 && !w.info.Served then
      some { data := data, totalRead := totalRead, failed := false, tfi := tfi,
             world := { w with logs := w.logs ++ ["Serving"], events := w.events ++ ["Serving"],
                               info := { w.info with Served := true } } }
    else
      some { data := data, totalRead := totalRead, failed := false, tfi := tfi, world := w }

end TorrentFileInfo

/-! ## The connection watcher of `onTorrentAdded` -/

/-- The three calls the watcher makes on the torrent. -/
inductive TorrentOp where
  | pauseTorrent
  | resumeTorrent
  | removeTorrent
  deriving DecidableEq, Repr

/-- The calls `AddConnection` and `RemoveConnection`. -/
inductive ConnCall where
  | AddConnection
  | RemoveConnection
  deriving DecidableEq, Repr

/-- What the call sends on `connectionChan`. -/
def ConnCall.delta : ConnCall → Int
  | .AddConnection => 1
  | .RemoveConnection => -1

/-- Where a timer goroutine started by the loop stands: created by the `go`
statement with nothing run yet (`spawned`); in the `select` of the branch
`!paused` or of the branch `paused` (`waiting paused`); or past `break Watcher`
and not yet at `watcherRunning = false` (`leaving`). -/
inductive Timer where
  | spawned
  | waiting (paused : Bool)
  | leaving
  deriving DecidableEq, Repr

/-- State of the goroutines started by `onTorrentAdded`: the record, the shared
flag `watcherRunning`, whether the loop is blocked in `resumeChan <- true`, the
live timer goroutines (oldest first), and the calls made on the torrent so far. -/
structure Watch where
  info : TorrentConnectionInfo
  watcherRunning : Bool
  sending : Bool
  watchers : List Timer
  ops : List TorrentOp

/-- The steps of the loop and of its timer goroutines, as they interleave.

* `signal d`: the loop receives `d` from `connectionChan`, adds it to
  `ConnectionCount`, and then either reads `watcherRunning` and, when it is set,
  blocks in the send on `resumeChan`, or runs the `go` statement.
* `start k`: timer goroutine `k` runs its first statements, `watcherRunning = true`
  and `paused := false`, and enters the first `select`.
* `resume k`: timer goroutine `k` receives what the loop sends on `resumeChan`.
* `pauseTimer k` / `removeTimer k`: the `time.After` of timer goroutine `k` fires
  in its first / second `select`.
* `leave k`: timer goroutine `k` runs its last statement, `watcherRunning = false`. -/
inductive Event where
  | signal (delta : Int)
  | start (k : Nat)
  | resume (k : Nat)
  | pauseTimer (k : Nat)
  | removeTimer (k : Nat)
  | leave (k : Nat)
  deriving DecidableEq, Repr

/-- State right after `onTorrentAdded` stored the new record and started the loop. -/
def onTorrentAdded : Watch :=
  { info := NewTorrentConnectionInfo, watcherRunning := false, sending := false,
    watchers := [], ops := [] }

/-- One step of the loop or of a timer goroutine.  The flag `watcherRunning` is
read by the loop in `signal` and written by the timer goroutines in `start` and
`leave`, each at the place the source has it, so a signal can be consumed between
the `go` statement and the goroutine's first write of the flag.  `none`: the step
cannot happen in this state (the loop is blocked in the send, nothing is being
sent, no such goroutine, or the goroutine is elsewhere). -/
def Watch.step (w : Watch) : Event → Option Watch
  | .signal delta =>
    if w.sending then none
    else
      let info := { w.info with ConnectionCount := w.info.ConnectionCount + delta }
      if info.ConnectionCount > 0 then
        if w.watcherRunning then some { w with info := info, sending := true }
        else some { w with info := info }
      else
        some { w with info := info, watchers := w.watchers ++ [Timer.spawned] }
  | .start k =>
    match w.watchers.get? k with
    | some Timer.spawned =>
      some { w with watcherRunning := true, watchers := w.watchers.set k (Timer.waiting false) }
    | _ => none
  | .resume k =>
    if w.sending then
      match w.watchers.get? k with
      | some (Timer.waiting paused) =>
        some { w with sending := false,
                      ops := if paused then w.ops ++ [TorrentOp.resumeTorrent] else w.ops,
                      watchers := w.watchers.set k Timer.leaving }
      | _ => none
    else none
  | .pauseTimer k =>
    match w.watchers.get? k with
    | some (Timer.waiting false) =>
      some { w with ops := w.ops ++ [TorrentOp.pauseTorrent],
                    watchers := w.watchers.set k (Timer.waiting true) }
    | _ => none
  | .removeTimer k =>
    match w.watchers.get? k with
    | some (Timer.waiting true) =>
      some { w with ops := w.ops ++ [TorrentOp.removeTorrent],
                    watchers := w.watchers.set k Timer.leaving }
    | _ => none
  | .leave k =>
    match w.watchers.get? k with
    | some Timer.leaving =>
      some { w with watcherRunning := false, watchers := w.watchers.eraseIdx k }
    | _ => none

/-- A sequence of events, in order. -/
def Watch.run (w : Watch) : List Event → Option Watch
  | [] => some w
  | e :: es =>
    match w.step e with
    | none => none
    | some w => Watch.run w es

/-- The deltas received by the loop in a sequence of events. -/
def Event.deltas : List Event → List Int
  | [] => []
  | .signal d :: es => d :: Event.deltas es
  | _ :: es => Event.deltas es

/-! ## Auxiliary definitions for the statements -/

/-- The values `i, i + 1, ..., i + n - 1` a counting loop runs through. -/
def upTo : Int → Nat → List Int
  | _, 0 => []
  | i, n + 1 => i :: upTo (i + 1) n

/-- Number of pieces of a torrent of total size `T` with piece length `L`, as
libtorrent's `torrent_info::num_pieces` reports it: `ceil(T / L)`. -/
def numPieces (T L : Int) : Int := (T + L - 1) / L

/-- A state reached from `s` by calls on the handle without sleeping. -/
def Extends (s s' : Swarm) : Prop := s'.clock = s.clock ∧ ∃ l, s'.calls = s.calls ++ l

/-! ## Concrete inputs -/

/-- A handle on which nothing was called yet, every piece at priority 1. -/
def freshSwarm : Swarm :=
  { priority := fun _ => 1, deadline := fun _ => none, clock := 0, calls := [] }

/-- A fresh process state around `freshSwarm`. -/
def freshWorld : World :=
  { swarm := freshSwarm, info := NewTorrentConnectionInfo, logs := [], events := [] }

/-- Look-ahead ratio 0.05 and the fixed 0.005, for piece counts on which the
`float32` products truncate like the exact ones (200 and 201 pieces: 10 and 1). -/
def ratio05 : LookAhead :=
  { initial := fun n => n * 5 / 100, running := fun n => n * 5 / 1000 }

/-- A swarm that never completes piece 0 and has every other piece. -/
def missingFirst : Avail := fun _ i => decide (i ≠ 0)

/-- An 8-byte file at offset 0 of a torrent with 4-byte pieces, opened at position 0. -/
def smallView : TorrentFileInfo :=
  { (NewTorrentFileInfo missingFirst "video.mkv" 8 0 4 freshSwarm).1 with
      file := some { content := [10, 11, 12, 13, 14, 15, 16, 17], pos := 0 } }

/-- A swarm on which piece `i` is complete from tick `i + 2` on. -/
def inOrder : Avail := fun t i => decide (i + 2 ≤ (t : Int))

/-- The 200 MiB file at offset 0 of a torrent with 1 MiB pieces. -/
def bigView : TorrentFileInfo :=
  (NewTorrentFileInfo inOrder "video.mkv" 209715200 0 1048576 freshSwarm).1

/-- A swarm that has every piece but piece 10. -/
def missingTenth : Avail := fun _ i => decide (i ≠ 10)

/-- A swarm that completes everything at tick 1. -/
def atOnce : Avail := fun t _ => decide (1 ≤ t)

/-- A swarm that completes pieces 196 and up at tick 1 and the others at tick 2. -/
def tailFirst : Avail := fun t i => if 196 ≤ i then decide (1 ≤ t) else decide (2 ≤ t)

/-- A file one byte short of 200 MiB at offset 0 of a torrent with 1 MiB pieces: it
covers pieces 0 to 199 and ends inside piece 199. -/
def tightView : TorrentFileInfo :=
  (NewTorrentFileInfo inOrder "video.mkv" 209715199 0 1048576 freshSwarm).1

/-- The handle after a sequential wait on piece 196 of `tightView`. -/
def afterTailWait : Swarm := (tightView.waitForPiece tailFirst ratio05 1 freshSwarm 196 false).2

/-! ## The watcher: concrete states -/

/-- The watcher after one `AddConnection` on a new record. -/
def oneReader : Watch :=
  { info := { ConnectionCount := 1, Served := false, paused := false },
    watcherRunning := false, sending := false, watchers := [], ops := [] }

/-- The watcher after remove, add, add, remove on a new record, none of the three
timer goroutines having run yet. -/
def threeSpawned : Watch :=
  { info := { ConnectionCount := 0, Served := false, paused := false },
    watcherRunning := false, sending := false,
    watchers := [Timer.spawned, Timer.spawned, Timer.spawned], ops := [] }

/-! ## Alerts -/

/-- The handler `onTorrentPaused`, on the record of the torrent the alert names. -/
def onTorrentPaused (w : World) : World :=
  if !w.info.paused then
    { w with logs := w.logs ++ ["Paused"], info := { w.info with paused := true } }
  else w

/-- The handler `onTorrentResumed`, on the record of the torrent the alert names. -/
def onTorrentResumed (w : World) : World :=
  if w.info.paused then
    { w with logs := w.logs ++ ["Resumed"], info := { w.info with paused := false } }
  else w

/-- The two alerts whose handlers touch the `paused` flag. -/
inductive Alert where
  | torrent_paused
  | torrent_resumed
  deriving DecidableEq, Repr

/-- The `switch` of `alertPump` on one alert. -/
def Alert.dispatch (w : World) : Alert → World
  | .torrent_paused => onTorrentPaused w
  | .torrent_resumed => onTorrentResumed w

/-- The loop of `alertPump` over the alerts popped so far, in order. -/
def alertPump (w : World) (alerts : List Alert) : World :=
  alerts.foldl Alert.dispatch w

/-! ## Sequences of Read calls -/

/-- A sequence of `Read` calls on the `TorrentFileInfo`s of one torrent, each call
given by the position of its view in `views` and the length of its buffer.  The
result lists, call by call, the process state before the call and what the call
returned; `none` when a call names no view, does not return, or returns an error. -/
def readAll (avail : Avail) (la : LookAhead) (pollFuel : Nat) :
    List (Nat × Nat) → List TorrentFileInfo → World → Option (List (World × ReadResult))
  | [], _, _ => some []
  | c :: cs, views, w =>
    match views.get? c.1 with
    | none => none
    | some tfi =>
      match tfi.Read avail la pollFuel w c.2 with
      | none => none
      | some r =>
        if r.failed then none
        else
          match readAll avail la pollFuel cs (views.set c.1 r.tfi) r.world with
          | none => none
          | some tr => some ((w, r) :: tr)

/-- The call left the counter `bytesRead` of its view above 10 MiB. -/
def crossed (p : World × ReadResult) : Prop := 10 * 1024 * 1024 < p.2.tfi.bytesRead

/-- The call emitted the "Serving" analytics event. -/
def emitted (p : World × ReadResult) : Prop := p.2.world.events = p.1.events ++ ["Serving"]

/-- A swarm that has every piece from the start. -/
def seeded : Avail := fun _ _ => true

/-- The view `smallView` two bytes short of 10 MiB read, and a second view of the
same file that has read nothing. -/
def twoViews : List TorrentFileInfo :=
  [{ smallView with bytesRead := 10 * 1024 * 1024 - 2 }, smallView]

/-- Four 4-byte `Read` calls on `twoViews`, a fully seeded swarm and a new record:
the fresh view, the nearly served view twice, the fresh view again. -/
def servingTrace : List (World × ReadResult) :=
  (readAll seeded ratio05 0 [(1, 4), (0, 4), (0, 4), (1, 4)] twoViews freshWorld).getD []

/-! ## Properties -/

open TorrentFileInfo

/-! ## Loops and the handle: general facts -/

theorem length_upTo : ∀ (n : Nat) (i : Int), (upTo i n).length = n
  | 0, _ => rfl
  | n + 1, i => by simp [upTo, length_upTo n (i + 1)]

theorem mem_upTo (j : Int) : ∀ (n : Nat) (i : Int), j ∈ upTo i n ↔ i ≤ j ∧ j < i + n
  | 0, i => by simp [upTo]
  | n + 1, i => by
    simp only [upTo, List.mem_cons, mem_upTo j n (i + 1)]
    push_cast
    omega

theorem forLoop_invariant {σ : Type} (P : σ → Prop) (cond : Int → Bool) (body : Int → σ → σ)
    (hb : ∀ i s, P s → P (body i s)) : ∀ (n : Nat) (i : Int) (s : σ), P s → P (forLoop cond body n i s)
  | 0, _, _, h => h
  | n + 1, i, s, h => by
    simp only [forLoop]
    split
    · exact forLoop_invariant P cond body hb n (i + 1) (body i s) (hb i s h)
    · exact h

theorem forLoop_eq_foldl {σ : Type} (cond : Int → Bool) (body : Int → σ → σ) :
    ∀ (m n : Nat) (i : Int) (s : σ), m ≤ n → (∀ k : Nat, k < m → cond (i + k) = true) →
      (m = n ∨ cond (i + m) = false) →
      forLoop cond body n i s = (upTo i m).foldl (fun s j => body j s) s
  | 0, 0, _, _, _, _, _ => rfl
  | 0, n + 1, i, s, _, _, h => by
    have h0 : cond i = false := by
      rcases h with h | h
      · omega
      · simpa using h
    simp [forLoop, upTo, h0]
  | m + 1, 0, _, _, h, _, _ => by omega
  | m + 1, n + 1, i, s, hmn, hc, hend => by
    have h0 : cond i = true := by simpa using hc 0 (by omega)
    simp only [forLoop, h0, if_true, upTo, List.foldl_cons]
    apply forLoop_eq_foldl cond body m n (i + 1) (body i s) (by omega)
    · intro k hk
      have := hc (k + 1) (by omega)
      rw [← this]; congr 1; push_cast; ring
    · rcases hend with h | h
      · left; omega
      · right; rw [← h]; congr 1; push_cast; ring

/-- The loop `for i := lo; i <= hi; i++` runs its body on `lo, ..., hi` in order. -/
theorem forLoop_le (σ : Type) (body : Int → σ → σ) (lo hi : Int) (s : σ) :
    forLoop (fun i => decide (i ≤ hi)) body (span lo hi) lo s
      = (upTo lo (span lo hi)).foldl (fun s j => body j s) s := by
  apply forLoop_eq_foldl _ _ (span lo hi) (span lo hi) lo s (le_refl _)
  · intro k hk
    simp only [span] at hk
    simp only [decide_eq_true_eq]
    omega
  · left; rfl

/-! ## The polling loop -/

theorem poll_spec (avail : Avail) (idx : Int) : ∀ (fuel : Nat) (s : Swarm),
    (waitForPiece.poll avail idx fuel s).1 = true →
      avail (waitForPiece.poll avail idx fuel s).2.clock idx = true ∧
      s.clock < (waitForPiece.poll avail idx fuel s).2.clock ∧
      (∀ t, s.clock < t → t < (waitForPiece.poll avail idx fuel s).2.clock →
        avail t idx = false) ∧
      ∃ pre, (waitForPiece.poll avail idx fuel s).2.calls
        = s.calls ++ pre ++ [Call.Have_piece idx true]
  | 0, s, h => by simp [waitForPiece.poll] at h
  | fuel + 1, s, h => by
    simp only [waitForPiece.poll, Swarm.Have_piece, Swarm.Sleep] at h ⊢
    by_cases hv : avail (s.clock + 1) idx = true
    · simp only [hv, if_true] at h ⊢
      refine ⟨?_, by omega, ?_, [], by simp⟩
      · trivial
      · intro t h1 h2; omega
    · simp only [hv] at h ⊢
      have ih := poll_spec avail idx fuel _ h
      simp only [Bool.false_eq_true, if_false] at ih ⊢
      obtain ⟨h1, h2, h3, pre, h4⟩ := ih
      refine ⟨h1, by omega, ?_, Call.Have_piece idx false :: pre, by simp [h4]⟩
      intro t ht1 ht2
      by_cases e : t = s.clock + 1
      · subst e; simpa using hv
      · exact h3 t (by omega) ht2

theorem poll_total (avail : Avail) (idx : Int) : ∀ (fuel : Nat) (s : Swarm),
    avail (s.clock + fuel) idx = true → 0 < fuel →
      (waitForPiece.poll avail idx fuel s).1 = true
  | 0, _, _, h => by omega
  | fuel + 1, s, hv, _ => by
    simp only [waitForPiece.poll, Swarm.Have_piece, Swarm.Sleep]
    by_cases h1 : avail (s.clock + 1) idx = true
    · simp [h1]
    · simp only [h1, Bool.false_eq_true, if_false]
      have hf : 0 < fuel := by
        rcases Nat.eq_zero_or_pos fuel with h0 | h0
        · subst h0; exact absurd hv h1
        · exact h0
      apply poll_total avail idx fuel _ _ hf
      simpa [Nat.add_assoc, Nat.add_comm 1 fuel] using hv

theorem poll_calls (avail : Avail) (idx : Int) : ∀ (fuel : Nat) (s : Swarm),
    ∃ l, (waitForPiece.poll avail idx fuel s).2.calls = s.calls ++ l ∧
      ∀ c ∈ l, ∃ b, c = Call.Have_piece idx b
  | 0, s => ⟨[], by simp [waitForPiece.poll]⟩
  | fuel + 1, s => by
    simp only [waitForPiece.poll, Swarm.Have_piece, Swarm.Sleep]
    by_cases hv : avail (s.clock + 1) idx = true
    · simp only [hv, if_true]
      exact ⟨[Call.Have_piece idx true], rfl, by simp⟩
    · simp only [hv, Bool.false_eq_true, if_false]
      obtain ⟨l, h1, h2⟩ := poll_calls avail idx fuel
        { s with clock := s.clock + 1, calls := s.calls ++ [Call.Have_piece idx (avail (s.clock + 1) idx)] }
      refine ⟨Call.Have_piece idx (avail (s.clock + 1) idx) :: l, ?_, ?_⟩
      · simp only [hv] at h1 ⊢
        rw [h1]; simp
      · intro c hc
        rcases List.mem_cons.1 hc with h | h
        · exact ⟨_, h⟩
        · exact h2 c h

/-! ## Directives keep the clock and extend the trace -/

theorem Extends.refl (s : Swarm) : Extends s s := ⟨rfl, [], by simp⟩

theorem Extends.trans {a b c : Swarm} (h1 : Extends a b) (h2 : Extends b c) : Extends a c := by
  obtain ⟨c1, l1, e1⟩ := h1
  obtain ⟨c2, l2, e2⟩ := h2
  exact ⟨c2.trans c1, l1 ++ l2, by rw [e2, e1, List.append_assoc]⟩

theorem extends_deadline (s : Swarm) (i ms fl : Int) : Extends s (s.Set_piece_deadline i ms fl) :=
  ⟨rfl, _, rfl⟩

theorem extends_priority (s : Swarm) (i p : Int) : Extends s (s.Piece_priority i p) :=
  ⟨rfl, _, rfl⟩

theorem extends_clear (s : Swarm) : Extends s s.Clear_piece_deadlines := ⟨rfl, _, rfl⟩

theorem extends_forLoop (cond : Int → Bool) (body : Int → Swarm → Swarm)
    (hb : ∀ i s, Extends s (body i s)) (n : Nat) (i : Int) (s : Swarm) :
    Extends s (forLoop cond body n i s) :=
  forLoop_invariant (fun s' => Extends s s') cond body
    (fun i s' h => h.trans (hb i s')) n i s (Extends.refl s)

theorem extends_SetInitialPriority (la : LookAhead) (tfi : TorrentFileInfo) (s : Swarm) :
    Extends s (tfi.SetInitialPriority la s) := by
  unfold SetInitialPriority
  exact (extends_forLoop _ _ (fun i s => extends_deadline s i 10000 0) _ _ s).trans
    (extends_deadline _ _ _ _)

theorem extends_critical (la : LookAhead) (tfi : TorrentFileInfo) (idx : Int) (s : Swarm) :
    Extends s (waitForPiece.critical la tfi idx s) := by
  unfold waitForPiece.critical
  exact (extends_clear s).trans (extends_forLoop _ _ (fun i s => extends_deadline s _ _ 0) _ _ _)

theorem extends_sequential (la : LookAhead) (tfi : TorrentFileInfo) (idx : Int) (s : Swarm) :
    Extends s (waitForPiece.sequential la tfi idx s) := by
  unfold waitForPiece.sequential
  exact (extends_forLoop _ _ (fun i s => extends_priority s _ _) _ _ _).trans
    (extends_forLoop _ _ (fun i s => extends_priority s _ _) _ _ _)

/-! ## C1: the gate of Read -/

/-- C1, the code at the failing input.  On a swarm that never completes piece 0, a
`Read` of 4 bytes at position 0 of a file at offset 0 with 4-byte pieces asks
`Have_piece` for piece 1 only and returns the bytes at positions 0 to 3, all of
which lie in piece 0: the bytes are handed out although their piece was never
waited for (and is not there). -/
theorem C1_read_skips_covering_piece :
    (smallView.Read missingFirst ratio05 0 freshWorld 4).map
        (fun r => (r.data, r.totalRead, r.failed, r.world.swarm.calls))
      = some ([10, 11, 12, 13], 4, false, [Call.Have_piece 1 true]) ∧
    [0, 1, 2, 3].map (fun q => smallView.GetPieceIndexFromOffset q) = [0, 0, 0, 0] ∧
    smallView.GetPieceIndexFromOffset (0 + 4) = 1 ∧
    ∀ t, missingFirst t 0 = false := by
  refine ⟨by decide, by decide, by decide, ?_⟩
  intro t
  rfl

/-! ## C2: waitForPiece returns only on a positive answer -/

/-- C2.  Whenever `waitForPiece(idx, timeCritical)` returns, the last call it made
on the handle is a `Have_piece(idx)` answered `true` (at the clock tick of the
return), and every earlier answer for `idx` during the call, from entry on, was
`false`; and it does return, within `t - clock` polls, as soon as the piece is
there at some tick `t`. -/
theorem C2_waitForPiece_returns_on_true (avail : Avail) (la : LookAhead) (tfi : TorrentFileInfo)
    (s : Swarm) (idx : Int) (timeCritical : Bool) :
    (∀ fuel b, (tfi.waitForPiece avail la fuel s idx timeCritical).1 = some b →
      avail (tfi.waitForPiece avail la fuel s idx timeCritical).2.clock idx = true ∧
      s.clock ≤ (tfi.waitForPiece avail la fuel s idx timeCritical).2.clock ∧
      (∀ t, s.clock ≤ t → t < (tfi.waitForPiece avail la fuel s idx timeCritical).2.clock →
        avail t idx = false) ∧
      ∃ pre, (tfi.waitForPiece avail la fuel s idx timeCritical).2.calls
        = s.calls ++ pre ++ [Call.Have_piece idx true]) ∧
    (∀ t, s.clock ≤ t → avail t idx = true →
      (tfi.waitForPiece avail la (t - s.clock) s idx timeCritical).1 = some false) := by
  -- the state handed to the polling loop keeps the clock and extends the trace
  have hext : Extends { s with calls := s.calls ++ [Call.Have_piece idx (avail s.clock idx)] }
      (tfi.SetInitialPriority la
        (if timeCritical then
          waitForPiece.critical la tfi idx
            { s with calls := s.calls ++ [Call.Have_piece idx (avail s.clock idx)] }
        else
          waitForPiece.sequential la tfi idx
            { s with calls := s.calls ++ [Call.Have_piece idx (avail s.clock idx)] })) := by
    refine Extends.trans ?_ (extends_SetInitialPriority la tfi _)
    cases timeCritical
    · exact extends_sequential la tfi idx _
    · exact extends_critical la tfi idx _
  obtain ⟨hclock, l, hcalls⟩ := hext
  simp only at hclock hcalls
  constructor
  · intro fuel b hb
    by_cases hv : avail s.clock idx = true
    · simp only [waitForPiece, Swarm.Have_piece, hv, Bool.not_true, Bool.false_eq_true,
        if_false]
      refine ⟨?_, le_refl _, ?_, [], by simp⟩
      · trivial
      · intro t h1 h2; omega
    · have hv' : avail s.clock idx = false := by simpa using hv
      simp only [waitForPiece, Swarm.Have_piece, hv', Bool.not_false, if_true] at hb ⊢
      have hp : (waitForPiece.poll avail idx fuel (tfi.SetInitialPriority la
          (if timeCritical then
            waitForPiece.critical la tfi idx
              { s with calls := s.calls ++ [Call.Have_piece idx false] }
          else
            waitForPiece.sequential la tfi idx
              { s with calls := s.calls ++ [Call.Have_piece idx false] }))).1 = true := by
        by_contra hne
        simp [hne] at hb
      obtain ⟨h1, h2, h3, pre, h4⟩ := poll_spec avail idx fuel _ hp
      rw [hv'] at hclock hcalls
      rw [hclock] at h2 h3
      refine ⟨h1, by omega, ?_, Call.Have_piece idx false :: (l ++ pre), ?_⟩
      · intro t ht1 ht2
        by_cases e : t = s.clock
        · subst e; exact hv'
        · exact h3 t (by omega) ht2
      · rw [h4, hcalls]; simp
  · intro t ht hv
    by_cases h0 : avail s.clock idx = true
    · simp [waitForPiece, Swarm.Have_piece, h0]
    · have h0' : avail s.clock idx = false := by simpa using h0
      have hlt : s.clock < t := by
        rcases Nat.lt_or_ge s.clock t with h | h
        · exact h
        · have : t = s.clock := by omega
          subst this; exact absurd hv h0
      simp only [waitForPiece, Swarm.Have_piece, h0', Bool.not_false, if_true]
      rw [h0'] at hclock
      rw [poll_total avail idx (t - s.clock) _ (by rw [hclock]; simpa [Nat.add_sub_cancel' ht] using hv)
        (by omega)]
      rfl

/-- C2 at a concrete input: piece 3 of the 200 MiB file arrives at tick 5; the
sequential wait returns after five polls with the positive answer last. -/
theorem C2_waitForPiece_returns_on_true_witness :
    (bigView.waitForPiece inOrder ratio05 5 freshSwarm 3 false).1 = some false ∧
    inOrder (bigView.waitForPiece inOrder ratio05 5 freshSwarm 3 false).2.clock 3 = true ∧
    (bigView.waitForPiece inOrder ratio05 (5 - freshSwarm.clock) freshSwarm 3 false).1
      = some false :=
  ⟨by decide,
   ((C2_waitForPiece_returns_on_true inOrder ratio05 bigView freshSwarm 3 false).1 5 false
      (by decide)).1,
   (C2_waitForPiece_returns_on_true inOrder ratio05 bigView freshSwarm 3 false).2 5
      (by decide) (by decide)⟩

/-! ## C3, C4: piece math of NewTorrentFileInfo -/

/-- C3.  For a file at offset `O >= 0` of size `S >= 0` with piece length `L > 0`,
`NewTorrentFileInfo` sets `startPiece = GetPieceIndexFromOffset(0) = floor(O / L)`,
`endPiece = GetPieceIndexFromOffset(S) = floor((O + S) / L)` and
`TotalPieces = endPiece - startPiece + 1`, which is at least 1. -/
theorem C3_piece_math (avail : Avail) (path : String) (S O L : Int) (s : Swarm)
    (hO : 0 ≤ O) (hS : 0 ≤ S) (hL : 0 < L) :
    let tfi := (NewTorrentFileInfo avail path S O L s).1
    tfi.startPiece = tfi.GetPieceIndexFromOffset 0 ∧
    tfi.startPiece = O / L ∧
    (L * tfi.startPiece ≤ O ∧ O < L * (tfi.startPiece + 1)) ∧
    tfi.endPiece = tfi.GetPieceIndexFromOffset S ∧
    tfi.endPiece = (O + S) / L ∧
    (L * tfi.endPiece ≤ O + S ∧ O + S < L * (tfi.endPiece + 1)) ∧
    tfi.TotalPieces = tfi.endPiece - tfi.startPiece + 1 ∧
    1 ≤ tfi.TotalPieces := by
  have h1 : Int.tdiv (O + 0) L = O / L := by
    rw [Int.add_zero]; exact Int.tdiv_eq_ediv hO hL.le
  have h2 : Int.tdiv (O + S) L = (O + S) / L := Int.tdiv_eq_ediv (by omega) hL.le
  have h3 : O / L ≤ (O + S) / L := Int.ediv_le_ediv hL (by omega)
  have a1 := Int.ediv_add_emod O L
  have a2 := Int.emod_nonneg O hL.ne'
  have a3 := Int.emod_lt_of_pos O hL
  have b1 := Int.ediv_add_emod (O + S) L
  have b2 := Int.emod_nonneg (O + S) hL.ne'
  have b3 := Int.emod_lt_of_pos (O + S) hL
  simp only [NewTorrentFileInfo, GetPieceIndexFromOffset, h1, h2]
  refine ⟨trivial, trivial, ⟨by omega, ?_⟩, trivial, trivial, ⟨by omega, ?_⟩, by omega, by omega⟩
  · rw [mul_add]; omega
  · rw [mul_add]; omega

/-- C3 at a concrete input: a 10-byte file at offset 6 with 4-byte pieces covers
pieces 1 to 4. -/
theorem C3_piece_math_witness :
    (NewTorrentFileInfo inOrder "a" 10 6 4 freshSwarm).1.startPiece = 6 / 4 ∧
    (NewTorrentFileInfo inOrder "a" 10 6 4 freshSwarm).1.endPiece = (6 + 10) / 4 ∧
    (NewTorrentFileInfo inOrder "a" 10 6 4 freshSwarm).1.TotalPieces = 4 :=
  have h := C3_piece_math inOrder "a" 10 6 4 freshSwarm (by decide) (by decide) (by decide)
  ⟨h.2.1, h.2.2.2.2.1, by decide⟩

/-- C4, the code at the failing input.  For the single 200 MiB file of a torrent
with 1 MiB pieces (offset 0, so the file ends on a piece boundary) the torrent has
200 pieces, numbered 0 to 199, and `NewTorrentFileInfo` sets `endPiece = 200`:
the piece range of the file leaves `[0, num_pieces)`. -/
theorem C4_endPiece_past_last_piece (avail : Avail) (s : Swarm) :
    (NewTorrentFileInfo avail "video.mkv" 209715200 0 1048576 s).1.startPiece = 0 ∧
    (NewTorrentFileInfo avail "video.mkv" 209715200 0 1048576 s).1.endPiece = 200 ∧
    numPieces 209715200 1048576 = 200 ∧
    ¬ (NewTorrentFileInfo avail "video.mkv" 209715200 0 1048576 s).1.endPiece
        < numPieces 209715200 1048576 := by
  refine ⟨rfl, rfl, by decide, ?_⟩
  show ¬ ((200 : Int) < numPieces 209715200 1048576)
  decide

/-! ## Runs of writes on the handle -/

theorem calls_Set_piece_deadline (s : Swarm) (i ms fl : Int) :
    (s.Set_piece_deadline i ms fl).calls = s.calls ++ [Call.Set_piece_deadline i ms fl] := rfl

theorem calls_Clear_piece_deadlines (s : Swarm) :
    s.Clear_piece_deadlines.calls = s.calls ++ [Call.Clear_piece_deadlines] := rfl

theorem foldl_deadline (f g : Int → Int) : ∀ (L : List Int) (s : Swarm),
    (L.foldl (fun s j => s.Set_piece_deadline (f j) (g j) 0) s).calls
        = s.calls ++ L.map (fun j => Call.Set_piece_deadline (f j) (g j) 0) ∧
    (L.foldl (fun s j => s.Set_piece_deadline (f j) (g j) 0) s).priority = s.priority ∧
    (L.foldl (fun s j => s.Set_piece_deadline (f j) (g j) 0) s).clock = s.clock
  | [], s => by simp
  | j :: L, s => by
    obtain ⟨h1, h2, h3⟩ := foldl_deadline f g L (s.Set_piece_deadline (f j) (g j) 0)
    simp only [List.foldl_cons, List.map_cons]
    refine ⟨?_, ?_, ?_⟩
    · rw [h1]; simp [Swarm.Set_piece_deadline]
    · rw [h2]; rfl
    · rw [h3]; rfl

theorem foldl_priority (f : Int → Int) (p : Int) : ∀ (L : List Int) (s : Swarm),
    (L.foldl (fun s j => s.Piece_priority (f j) p) s).calls
        = s.calls ++ L.map (fun j => Call.Piece_priority (f j) p) ∧
    (L.foldl (fun s j => s.Piece_priority (f j) p) s).deadline = s.deadline ∧
    (L.foldl (fun s j => s.Piece_priority (f j) p) s).clock = s.clock ∧
    ∀ i, (L.foldl (fun s j => s.Piece_priority (f j) p) s).priority i
        = if i ∈ L.map f then p else s.priority i
  | [], s => by simp
  | j :: L, s => by
    obtain ⟨h1, h2, h3, h4⟩ := foldl_priority f p L (s.Piece_priority (f j) p)
    simp only [List.foldl_cons, List.map_cons]
    refine ⟨?_, ?_, ?_, ?_⟩
    · rw [h1]; simp [Swarm.Piece_priority]
    · rw [h2]; rfl
    · rw [h3]; rfl
    · intro i
      rw [h4]
      by_cases hi : i ∈ L.map f
      · simp [hi]
      · by_cases e : i = f j
        · simp [Swarm.Piece_priority, setAt, e]
        · simp [Swarm.Piece_priority, setAt, e, hi]

/-- The loop `for i := 0; i <= n && i + idx <= hi; i++` runs its body on
`0, ..., min n (hi - idx)` in order. -/
theorem forLoop_window (σ : Type) (body : Int → σ → σ) (n idx hi : Int) (s : σ) :
    forLoop (fun i => decide (i ≤ n) && decide (i + idx ≤ hi)) body (span 0 n) 0 s
      = (upTo 0 (span 0 (min n (hi - idx)))).foldl (fun s j => body j s) s := by
  apply forLoop_eq_foldl _ _ (span 0 (min n (hi - idx))) (span 0 n) 0 s
  · simp only [span]; omega
  · intro k hk
    simp only [span] at hk
    simp only [Bool.and_eq_true, decide_eq_true_eq]
    omega
  · simp only [span, Bool.and_eq_false_iff, decide_eq_false_iff_not]
    omega

theorem SetInitialPriority_calls (la : LookAhead) (tfi : TorrentFileInfo) (s : Swarm) :
    (tfi.SetInitialPriority la s).calls
      = s.calls ++
        (upTo tfi.startPiece (span tfi.startPiece
            (min (tfi.startPiece + tfi.getLookAhead la true) tfi.endPiece))).map
          (fun i => Call.Set_piece_deadline i 10000 0) ++
        [Call.Set_piece_deadline tfi.endPiece 10000 0] := by
  simp only [SetInitialPriority, forLoop_le]
  obtain ⟨h1, -, -⟩ := foldl_deadline (fun i => i) (fun _ => 10000)
    (upTo tfi.startPiece (span tfi.startPiece
      (min (tfi.startPiece + tfi.getLookAhead la true) tfi.endPiece))) s
  rw [calls_Set_piece_deadline, h1]

theorem critical_calls (la : LookAhead) (tfi : TorrentFileInfo) (idx : Int) (s : Swarm) :
    (waitForPiece.critical la tfi idx s).calls
      = s.calls ++ [Call.Clear_piece_deadlines] ++
        (upTo 0 (span 0 (min (tfi.getLookAhead la false) (tfi.endPiece - idx)))).map
          (fun i => Call.Set_piece_deadline (idx + i) (3000 + 1000 * i) 0) := by
  simp only [waitForPiece.critical, forLoop_window]
  obtain ⟨h1, -, -⟩ := foldl_deadline (fun i => idx + i) (fun i => 3000 + i * 1000)
    (upTo 0 (span 0 (min (tfi.getLookAhead la false) (tfi.endPiece - idx))))
    s.Clear_piece_deadlines
  rw [h1, calls_Clear_piece_deadlines]
  congr 1
  apply List.map_congr_left
  intro i _
  congr 1
  ring

/-! ## C5: the deadlines of SetInitialPriority -/

/-- C5 as stated fails on the 200 MiB file (pieces 0 to 200, look-ahead count
`k = 10`): `SetInitialPriority` sets the deadline on the eleven pieces 0 to 10 and on
the final piece, so also on piece 10, which is neither one of the first 10 pieces
(0 to 9) nor the final piece. -/
theorem C5_counterexample :
    bigView.startPiece = 0 ∧ bigView.endPiece = 200 ∧ bigView.getLookAhead ratio05 true = 10 ∧
    (bigView.SetInitialPriority ratio05 freshSwarm).calls
      = [0, 1, 2, 3, 4, 5, 6, 7, 8, 9, 10, 200].map (fun i => Call.Set_piece_deadline i 10000 0) ∧
    ¬ (∀ i, Call.Set_piece_deadline i 10000 0 ∈ (bigView.SetInitialPriority ratio05 freshSwarm).calls ↔
        (bigView.startPiece ≤ i ∧ i ≤ bigView.startPiece + bigView.getLookAhead ratio05 true - 1 ∧
          i ≤ bigView.endPiece) ∨ i = bigView.endPiece) := by
  refine ⟨by decide, by decide, by decide, by decide, ?_⟩
  intro h
  have h10 := (h 10).1 (by decide)
  revert h10
  decide

/-- C5, amended.  `SetInitialPriority` issues, in this order, `Set_piece_deadline(i,
10000, 0)` for `i = startPiece, ..., min(startPiece + k, endPiece)` with
`k = getLookAhead(true)` (the first `k + 1` pieces, clamped to the file) and then for
`endPiece`, and nothing else: a piece gets a deadline exactly when it lies in
`startPiece .. min(startPiece + k, endPiece)` or is `endPiece`, and the window holds
`min(startPiece + k, endPiece) - startPiece + 1` pieces. -/
theorem C5_initial_deadlines (la : LookAhead) (tfi : TorrentFileInfo) (s : Swarm) :
    (tfi.SetInitialPriority la s).calls
      = s.calls ++
        ((upTo tfi.startPiece (span tfi.startPiece
            (min (tfi.startPiece + tfi.getLookAhead la true) tfi.endPiece))).map
          (fun i => Call.Set_piece_deadline i 10000 0) ++
        [Call.Set_piece_deadline tfi.endPiece 10000 0]) ∧
    (∀ i, Call.Set_piece_deadline i 10000 0 ∈
        (upTo tfi.startPiece (span tfi.startPiece
            (min (tfi.startPiece + tfi.getLookAhead la true) tfi.endPiece))).map
          (fun i => Call.Set_piece_deadline i 10000 0) ++
        [Call.Set_piece_deadline tfi.endPiece 10000 0] ↔
      (tfi.startPiece ≤ i ∧ i ≤ tfi.startPiece + tfi.getLookAhead la true ∧ i ≤ tfi.endPiece) ∨
        i = tfi.endPiece) ∧
    ((upTo tfi.startPiece (span tfi.startPiece
        (min (tfi.startPiece + tfi.getLookAhead la true) tfi.endPiece))).length : Int)
      = max 0 (min (tfi.startPiece + tfi.getLookAhead la true) tfi.endPiece - tfi.startPiece + 1) := by
  refine ⟨?_, ?_, ?_⟩
  · rw [SetInitialPriority_calls, List.append_assoc]
  · intro i
    simp only [List.mem_append, List.mem_map, mem_upTo, span, List.mem_singleton,
      Call.Set_piece_deadline.injEq, and_true]
    constructor
    · rintro (⟨j, hj, rfl⟩ | h)
      · left; omega
      · right; exact h
    · rintro (h | h)
      · left; exact ⟨i, by omega, rfl⟩
      · right; exact h
  · rw [length_upTo]
    simp only [span]
    omega

/-! ## C6: IsVideoReady -/

theorem scan_spec (avail : Avail) (hi : Int) : ∀ (n : Nat) (i : Int) (s : Swarm),
    (IsVideoReady.scan avail hi n i s).2.clock = s.clock ∧
    ((IsVideoReady.scan avail hi n i s).1 = none ∨
      (IsVideoReady.scan avail hi n i s).1 = some false) ∧
    ((IsVideoReady.scan avail hi n i s).1 = none ↔
      ∀ j, i ≤ j → j < i + n → j ≤ hi → avail s.clock j = true)
  | 0, i, s => by
    simp only [IsVideoReady.scan, true_and, true_or]
    constructor
    · intro _ j h1 h2; exact absurd h2 (by push_cast; omega)
    · intro _; trivial
  | n + 1, i, s => by
    simp only [IsVideoReady.scan]
    by_cases hle : i ≤ hi
    · by_cases hv : avail s.clock i = true
      · obtain ⟨h1, h2, h3⟩ := scan_spec avail hi n (i + 1) (s.Have_piece avail i).2
        have hc : (s.Have_piece avail i).2.clock = s.clock := rfl
        have hr : (s.Have_piece avail i).1 = true := hv
        simp only [hle, if_true, hr, Bool.not_true, Bool.false_eq_true, if_false]
        refine ⟨h1.trans hc, h2, h3.trans ?_⟩
        rw [hc]
        constructor
        · intro h j hj1 hj2 hj3
          by_cases e : j = i
          · subst e; exact hv
          · exact h j (by omega) (by push_cast at hj2 ⊢; omega) hj3
        · intro h j hj1 hj2 hj3
          exact h j (by omega) (by push_cast at hj2 ⊢; omega) hj3
      · have hr : (s.Have_piece avail i).1 = false := by
          simpa [Swarm.Have_piece] using hv
        simp only [hle, if_true, hr, Bool.not_false]
        refine ⟨rfl, by simp, ?_⟩
        constructor
        · intro h; simp at h
        · intro h
          exact absurd (h i (le_refl _) (by push_cast; omega) hle) hv
    · simp only [hle, if_false, true_and, true_or]
      constructor
      · intro _ j hj1 _ hj3; omega
      · intro _; trivial

theorem IsVideoReady_iff (avail : Avail) (la : LookAhead) (tfi : TorrentFileInfo) (s : Swarm) :
    (tfi.IsVideoReady avail la s).1 = true ↔
      (∀ i, tfi.startPiece ≤ i → i ≤ tfi.startPiece + tfi.getLookAhead la true →
        i ≤ tfi.endPiece → avail s.clock i = true) ∧
      avail s.clock tfi.endPiece = true := by
  obtain ⟨h1, h2, h3⟩ := scan_spec avail
    (min (tfi.startPiece + tfi.getLookAhead la true) tfi.endPiece)
    (span tfi.startPiece (min (tfi.startPiece + tfi.getLookAhead la true) tfi.endPiece))
    tfi.startPiece s
  have hcov : (∀ j, tfi.startPiece ≤ j →
        j < tfi.startPiece + (span tfi.startPiece
          (min (tfi.startPiece + tfi.getLookAhead la true) tfi.endPiece) : Nat) →
        j ≤ min (tfi.startPiece + tfi.getLookAhead la true) tfi.endPiece →
        avail s.clock j = true) ↔
      (∀ i, tfi.startPiece ≤ i → i ≤ tfi.startPiece + tfi.getLookAhead la true →
        i ≤ tfi.endPiece → avail s.clock i = true) := by
    constructor
    · intro h i a b c
      exact h i a (by simp only [span]; omega) (by omega)
    · intro h j a _ c
      exact h j a (by omega) (by omega)
  rw [hcov] at h3
  unfold IsVideoReady
  simp only
  generalize IsVideoReady.scan avail
    (min (tfi.startPiece + tfi.getLookAhead la true) tfi.endPiece)
    (span tfi.startPiece (min (tfi.startPiece + tfi.getLookAhead la true) tfi.endPiece))
    tfi.startPiece s = r at h1 h2 h3
  obtain ⟨o, s'⟩ := r
  simp only at h1 h2 h3
  rcases h2 with h2 | h2
  · subst h2
    have hall := h3.1 rfl
    simp only [Swarm.Have_piece, h1]
    by_cases hv : avail s.clock tfi.endPiece = true
    · simp only [hv, Bool.not_true, Bool.false_eq_true, if_false, true_iff, and_true]
      exact hall
    · simp [hv]
  · subst h2
    have hnot : ¬ (∀ i, tfi.startPiece ≤ i → i ≤ tfi.startPiece + tfi.getLookAhead la true →
        i ≤ tfi.endPiece → avail s.clock i = true) := fun h => by
      have := h3.2 h; cases this
    simp [hnot]

/-- C6 as stated fails on the 200 MiB file (look-ahead count `k = 10`): with every
piece but piece 10 available, the first 10 pieces (0 to 9) and the final piece are
there, yet `IsVideoReady` answers `false`. -/
theorem C6_counterexample :
    bigView.getLookAhead ratio05 true = 10 ∧
    ¬ ((bigView.IsVideoReady missingTenth ratio05 freshSwarm).1 = true ↔
        (∀ i, bigView.startPiece ≤ i → i ≤ bigView.startPiece + bigView.getLookAhead ratio05 true - 1 →
          missingTenth freshSwarm.clock i = true) ∧
        missingTenth freshSwarm.clock bigView.endPiece = true) := by
  refine ⟨by decide, ?_⟩
  intro h
  have hfalse : (bigView.IsVideoReady missingTenth ratio05 freshSwarm).1 = false := by decide
  rw [hfalse] at h
  have hk : bigView.getLookAhead ratio05 true = 10 := by decide
  have : false = true := h.2 ⟨fun i h1 h2 => by
    rw [hk] at h2
    have : bigView.startPiece = 0 := by decide
    rw [this] at h2
    simp only [missingTenth, decide_eq_true_eq]
    omega, by decide⟩
  cases this

/-- C6, amended.  `IsVideoReady` returns `true` if and only if every piece in
`startPiece .. min(startPiece + k, endPiece)` with `k = getLookAhead(true)` (the first
`k + 1` pieces, clamped to the file) and the final piece `endPiece` are available;
the answer is the same for any two availability assignments that agree on these
pieces. -/
theorem C6_video_ready (avail : Avail) (la : LookAhead) (tfi : TorrentFileInfo) (s : Swarm) :
    ((tfi.IsVideoReady avail la s).1 = true ↔
      (∀ i, tfi.startPiece ≤ i → i ≤ tfi.startPiece + tfi.getLookAhead la true →
        i ≤ tfi.endPiece → avail s.clock i = true) ∧
      avail s.clock tfi.endPiece = true) ∧
    ∀ avail' : Avail,
      (∀ i, (tfi.startPiece ≤ i ∧ i ≤ tfi.startPiece + tfi.getLookAhead la true ∧
          i ≤ tfi.endPiece) ∨ i = tfi.endPiece → avail' s.clock i = avail s.clock i) →
      (tfi.IsVideoReady avail' la s).1 = (tfi.IsVideoReady avail la s).1 := by
  refine ⟨IsVideoReady_iff avail la tfi s, ?_⟩
  intro avail' hag
  have h1 := IsVideoReady_iff avail la tfi s
  have h2 := IsVideoReady_iff avail' la tfi s
  have e : ((tfi.IsVideoReady avail' la s).1 = true ↔ (tfi.IsVideoReady avail la s).1 = true) := by
    rw [h1, h2]
    constructor
    · rintro ⟨a, b⟩
      exact ⟨fun i x y z => by rw [← hag i (Or.inl ⟨x, y, z⟩)]; exact a i x y z,
        by rw [← hag _ (Or.inr rfl)]; exact b⟩
    · rintro ⟨a, b⟩
      exact ⟨fun i x y z => by rw [hag i (Or.inl ⟨x, y, z⟩)]; exact a i x y z,
        by rw [hag _ (Or.inr rfl)]; exact b⟩
  exact Bool.eq_iff_iff.2 e

/-- C6 at a concrete input: on the 200 MiB file, a swarm that lacks piece 10 and a
swarm that lacks pieces 10 and 50 get the same answer. -/
theorem C6_video_ready_witness :
    (bigView.IsVideoReady (fun _ i => decide (i ≠ 10 ∧ i ≠ 50)) ratio05 freshSwarm).1
      = (bigView.IsVideoReady missingTenth ratio05 freshSwarm).1 :=
  (C6_video_ready missingTenth ratio05 bigView freshSwarm).2 (fun _ i => decide (i ≠ 10 ∧ i ≠ 50))
    (by
      have hk : bigView.getLookAhead ratio05 true = 10 := by decide
      have hs : bigView.startPiece = 0 := by decide
      have he : bigView.endPiece = 200 := by decide
      intro i hi
      rw [hk, hs, he] at hi
      have : i ≠ 50 := by omega
      simp [missingTenth, this])

/-! ## C7: the ladder of the time-critical branch -/

/-- C7 as stated fails on a file covering pieces 0 to 199 (running look-ahead 1): a
time-critical wait on the final piece 199 returns after `Clear_piece_deadlines`, the
single rung `Set_piece_deadline(199, 3000, 0)`, the deadlines of `SetInitialPriority`
and one poll; the rung for `i = 1`, `Set_piece_deadline(200, 4000, 0)`, is never
issued. -/
theorem C7_counterexample :
    tightView.endPiece = 199 ∧ tightView.getLookAhead ratio05 false = 1 ∧
    atOnce freshSwarm.clock 199 = false ∧
    (tightView.waitForPiece atOnce ratio05 1 freshSwarm 199 true).1 = some false ∧
    Call.Set_piece_deadline (199 + 1) (3000 + 1000 * 1) 0
      ∉ (tightView.waitForPiece atOnce ratio05 1 freshSwarm 199 true).2.calls := by
  decide

/-- C7, amended.  When piece `idx` is not available on entry, the calls of
`waitForPiece(idx, true)` on the handle are, in this order: the `Have_piece(idx)`
answered `false`, `Clear_piece_deadlines`, then `Set_piece_deadline(idx + i,
3000 + 1000*i, 0)` for `i = 0, ..., min(look_ahead_running, endPiece - idx)` in
increasing `i` (the ladder stops at the final piece of the file), and after these
only the 10000 ms deadlines of `SetInitialPriority` and the polls of `Have_piece(idx)`;
no `Piece_priority` write is among them.  This holds however long the wait polls. -/
theorem C7_critical_ladder (avail : Avail) (la : LookAhead) (tfi : TorrentFileInfo) (s : Swarm)
    (idx : Int) (fuel : Nat) (h : avail s.clock idx = false) :
    ∃ rest,
      (tfi.waitForPiece avail la fuel s idx true).2.calls
        = s.calls ++
          ([Call.Have_piece idx false, Call.Clear_piece_deadlines] ++
           (upTo 0 (span 0 (min (tfi.getLookAhead la false) (tfi.endPiece - idx)))).map
             (fun i => Call.Set_piece_deadline (idx + i) (3000 + 1000 * i) 0) ++
           rest) ∧
      (∀ c ∈ rest, (∃ i, c = Call.Set_piece_deadline i 10000 0) ∨ ∃ b, c = Call.Have_piece idx b) ∧
      ∀ i p, Call.Piece_priority i p ∉
          [Call.Have_piece idx false, Call.Clear_piece_deadlines] ++
           (upTo 0 (span 0 (min (tfi.getLookAhead la false) (tfi.endPiece - idx)))).map
             (fun i => Call.Set_piece_deadline (idx + i) (3000 + 1000 * i) 0) ++
           rest := by
  obtain ⟨l, hl, hl2⟩ := poll_calls avail idx fuel
    (tfi.SetInitialPriority la (waitForPiece.critical la tfi idx (s.Have_piece avail idx).2))
  refine ⟨(upTo tfi.startPiece (span tfi.startPiece
            (min (tfi.startPiece + tfi.getLookAhead la true) tfi.endPiece))).map
          (fun i => Call.Set_piece_deadline i 10000 0) ++
        [Call.Set_piece_deadline tfi.endPiece 10000 0] ++ l, ?_, ?_, ?_⟩
  · have hr : (s.Have_piece avail idx).1 = false := h
    simp only [waitForPiece, hr, Bool.not_false, if_true]
    rw [hl, SetInitialPriority_calls, critical_calls]
    simp [Swarm.Have_piece, h]
  · intro c hc
    simp only [List.mem_append, List.mem_map, List.mem_singleton] at hc
    rcases hc with (⟨i, _, rfl⟩ | rfl) | hc
    · exact Or.inl ⟨i, rfl⟩
    · exact Or.inl ⟨_, rfl⟩
    · exact Or.inr (hl2 c hc)
  · intro i p hc
    simp only [List.mem_append, List.mem_map, List.mem_singleton, List.mem_cons,
      List.mem_nil_iff, or_false] at hc
    rcases hc with ((hc | hc) | ⟨j, _, hc⟩) | ((⟨j, _, hc⟩ | hc) | hc)
    · cases hc
    · cases hc
    · cases hc
    · cases hc
    · cases hc
    · obtain ⟨b, hb⟩ := hl2 _ hc
      cases hb

/-- C7 at a concrete input: a time-critical wait on piece 150 of the 200 MiB file
(running look-ahead 1) lays the rungs 3000 ms on piece 150 and 4000 ms on piece 151
right after `Clear_piece_deadlines`. -/
theorem C7_critical_ladder_witness :
    ∃ rest,
      (bigView.waitForPiece atOnce ratio05 1 freshSwarm 150 true).2.calls
        = freshSwarm.calls ++
          ([Call.Have_piece 150 false, Call.Clear_piece_deadlines] ++
           (upTo 0 (span 0 (min (bigView.getLookAhead ratio05 false) (bigView.endPiece - 150)))).map
             (fun i => Call.Set_piece_deadline (150 + i) (3000 + 1000 * i) 0) ++
           rest) ∧
      (∀ c ∈ rest, (∃ i, c = Call.Set_piece_deadline i 10000 0) ∨ ∃ b, c = Call.Have_piece 150 b) ∧
      ∀ i p, Call.Piece_priority i p ∉
          [Call.Have_piece 150 false, Call.Clear_piece_deadlines] ++
           (upTo 0 (span 0 (min (bigView.getLookAhead ratio05 false) (bigView.endPiece - 150)))).map
             (fun i => Call.Set_piece_deadline (150 + i) (3000 + 1000 * i) 0) ++
           rest :=
  C7_critical_ladder atOnce ratio05 bigView freshSwarm 150 1 (by decide)

/-! ## C8: the priorities of the sequential branch -/

/-- What the two loops of the sequential branch leave in the priority map: 7 on the
pieces `idx .. min(idx + 4 * look_ahead_running, endPiece)`, 1 on the other pieces of
`startPiece .. endPiece - 1`, and the old priority everywhere else. -/
theorem sequential_priority (la : LookAhead) (tfi : TorrentFileInfo) (idx : Int) (s : Swarm)
    (j : Int) :
    (waitForPiece.sequential la tfi idx s).priority j
      = if idx ≤ j ∧ j ≤ idx + tfi.getLookAhead la false * 4 ∧ j ≤ tfi.endPiece then 7
        else if tfi.startPiece ≤ j ∧ j < tfi.endPiece then 1
        else s.priority j := by
  have e1 : forLoop (fun i => decide (i < tfi.endPiece)) (fun i s => s.Piece_priority i 1)
      (span tfi.startPiece (tfi.endPiece - 1)) tfi.startPiece s
      = forLoop (fun i => decide (i ≤ tfi.endPiece - 1)) (fun i s => s.Piece_priority i 1)
        (span tfi.startPiece (tfi.endPiece - 1)) tfi.startPiece s := by
    congr 1
    funext i
    simp only [decide_eq_decide]
    omega
  simp only [waitForPiece.sequential, e1, forLoop_le, forLoop_window]
  obtain ⟨-, -, -, h2⟩ := foldl_priority (fun i => idx + i) 7
    (upTo 0 (span 0 (min (tfi.getLookAhead la false * 4) (tfi.endPiece - idx))))
    (List.foldl (fun s j => s.Piece_priority j 1) s
      (upTo tfi.startPiece (span tfi.startPiece (tfi.endPiece - 1))))
  obtain ⟨-, -, -, h1⟩ := foldl_priority (fun i => i) 1
    (upTo tfi.startPiece (span tfi.startPiece (tfi.endPiece - 1))) s
  rw [h2, h1]
  have m2 : j ∈ (upTo 0 (span 0 (min (tfi.getLookAhead la false * 4) (tfi.endPiece - idx)))).map
      (fun i => idx + i) ↔
      idx ≤ j ∧ j ≤ idx + tfi.getLookAhead la false * 4 ∧ j ≤ tfi.endPiece := by
    simp only [List.mem_map, mem_upTo, span]
    constructor
    · rintro ⟨i, hi, rfl⟩; omega
    · intro h; exact ⟨j - idx, by omega, by omega⟩
  have m1 : j ∈ (upTo tfi.startPiece (span tfi.startPiece (tfi.endPiece - 1))).map (fun i => i) ↔
      tfi.startPiece ≤ j ∧ j < tfi.endPiece := by
    simp only [List.map_id', mem_upTo, span]
    omega
  simp only [m1, m2]

set_option maxRecDepth 20000 in
/-- C8, the code at the failing input.  On a file covering pieces 0 to 199 (running
look-ahead 1, so a window of 4 pieces ahead), a sequential wait on piece 196 leaves
the final piece 199 at priority 7.  A later sequential wait on piece 0 returns with
pieces 0 to 4 at priority 7 and pieces 5 and 198 at priority 1, but the final piece
199, outside the window 0 .. 4, still at priority 7: the first loop stops before
`endPiece`. -/
theorem C8_final_piece_keeps_priority :
    tightView.startPiece = 0 ∧ tightView.endPiece = 199 ∧
    tightView.getLookAhead ratio05 false = 1 ∧
    afterTailWait.priority 199 = 7 ∧
    tailFirst afterTailWait.clock 0 = false ∧
    (waitForPiece.sequential ratio05 tightView 0 (afterTailWait.Have_piece tailFirst 0).2).priority 199
      = 7 ∧
    (tightView.waitForPiece tailFirst ratio05 1 afterTailWait 0 false).1 = some false ∧
    [0, 4, 5, 198, 199].map (tightView.waitForPiece tailFirst ratio05 1 afterTailWait 0 false).2.priority
      = [7, 7, 1, 1, 7] := by
  decide

/-! ## The connection watcher -/

theorem step_count (w w' : Watch) (e : Event) (h : w.step e = some w') :
    w'.info.ConnectionCount = w.info.ConnectionCount + (Event.deltas [e]).sum := by
  cases e with
  | signal d =>
    simp only [Watch.step] at h
    split at h
    · cases h
    · split at h
      · split at h
        · cases h; simp [Event.deltas]
        · cases h; simp [Event.deltas]
      · cases h; simp [Event.deltas]
  | start k =>
    simp only [Watch.step] at h
    split at h
    · cases h; simp [Event.deltas]
    · cases h
  | resume k =>
    simp only [Watch.step] at h
    split at h
    · split at h
      · cases h; simp [Event.deltas]
      · cases h
    · cases h
  | pauseTimer k =>
    simp only [Watch.step] at h
    split at h
    · cases h; simp [Event.deltas]
    · cases h
  | removeTimer k =>
    simp only [Watch.step] at h
    split at h
    · cases h; simp [Event.deltas]
    · cases h
  | leave k =>
    simp only [Watch.step] at h
    split at h
    · cases h; simp [Event.deltas]
    · cases h

theorem deltas_cons (e : Event) (es : List Event) :
    (Event.deltas (e :: es)).sum = (Event.deltas [e]).sum + (Event.deltas es).sum := by
  cases e <;> simp [Event.deltas]

theorem run_count : ∀ (es : List Event) (w w' : Watch), w.run es = some w' →
    w'.info.ConnectionCount = w.info.ConnectionCount + (Event.deltas es).sum
  | [], w, w', hr => by
    simp only [Watch.run, Option.some.injEq] at hr
    subst hr; simp [Event.deltas]
  | e :: es, w, w', hr => by
    simp only [Watch.run] at hr
    cases hstep : w.step e with
    | none => simp [hstep] at hr
    | some w1 =>
      simp only [hstep] at hr
      rw [run_count es w1 w' hr, step_count w w1 e hstep, deltas_cons e es]
      ring

theorem run_signals : ∀ (ds : List Int) (w : Watch), w.watcherRunning = false →
    w.sending = false → ∃ w', w.run (ds.map (fun d => Event.signal d)) = some w'
  | [], w, _, _ => ⟨w, rfl⟩
  | d :: ds, w, hfl, hsd => by
    simp only [List.map_cons, Watch.run]
    by_cases hgt : w.info.ConnectionCount + d > 0
    · simp only [Watch.step, hsd, Bool.false_eq_true, if_false, hgt, if_true, hfl]
      exact run_signals ds _ rfl rfl
    · simp only [Watch.step, hsd, Bool.false_eq_true, if_false, hgt]
      exact run_signals ds _ hfl rfl

theorem deltas_signals (ds : List Int) :
    Event.deltas (ds.map (fun d => Event.signal d)) = ds := by
  induction ds with
  | nil => rfl
  | cons d ds ih => simp [Event.deltas, ih]

theorem sum_deltas (cs : List ConnCall) :
    (cs.map ConnCall.delta).sum
      = (cs.count ConnCall.AddConnection : Int) - (cs.count ConnCall.RemoveConnection : Int) := by
  induction cs with
  | nil => simp
  | cons c cs ih =>
    cases c
    · simp [ConnCall.delta, ih, List.count_cons]; ring
    · simp [ConnCall.delta, ih, List.count_cons]; ring

/-! ## C9, C10: resume and balance -/

/-- C9, the code at the failing input.  One connection is open (`oneReader`, the
state after one `AddConnection`).  The `-1` brings `ConnectionCount` to 0 and the
loop runs the `go` statement; the next `+1` is consumed before the new goroutine
has written `watcherRunning`, so the loop reads the flag as false and sends no
resume.  The goroutine then starts, its pause timer fires and then its remove timer:
`pauseTorrent` and `removeTorrent` are called although `ConnectionCount` is 1 and
the `+1` arrived before either timer.  When the goroutine starts before the `+1`
is consumed the same signals give what is intended: no call when the `+1` comes
before the pause timer, `pauseTorrent` then `resumeTorrent` when it comes after. -/
theorem C9_resume_lost_before_start :
    onTorrentAdded.run [Event.signal 1] = some oneReader ∧
    (oneReader.run [Event.signal (-1), Event.signal 1, Event.start 0, Event.pauseTimer 0,
        Event.removeTimer 0, Event.leave 0]).map
        (fun w => (w.info.ConnectionCount, w.ops, w.watchers))
      = some (1, [TorrentOp.pauseTorrent, TorrentOp.removeTorrent], []) ∧
    (oneReader.run [Event.signal (-1), Event.signal 1]).map
        (fun w => (w.info.ConnectionCount, w.watcherRunning, w.sending, w.watchers))
      = some (1, false, false, [Timer.spawned]) ∧
    (oneReader.run [Event.signal (-1), Event.start 0, Event.signal 1, Event.resume 0,
        Event.leave 0]).map (fun w => (w.info.ConnectionCount, w.ops, w.watchers))
      = some (1, [], []) ∧
    (oneReader.run [Event.signal (-1), Event.start 0, Event.pauseTimer 0, Event.signal 1,
        Event.resume 0, Event.leave 0]).map (fun w => (w.info.ConnectionCount, w.ops, w.watchers))
      = some (1, [TorrentOp.pauseTorrent, TorrentOp.resumeTorrent], []) := by
  refine ⟨by rfl, by decide, by decide, by decide, by decide⟩

/-- C10.  Whatever events the watcher goes through from `onTorrentAdded` on (signals
in any order, timers firing in between), `ConnectionCount` is then the sum of the
deltas the loop received; every finite sequence of `AddConnection` /
`RemoveConnection` calls can be consumed by the loop; and after a sequence with as
many `AddConnection` as `RemoveConnection` calls, in any order, `ConnectionCount`
is 0. -/
theorem C10_connection_balance :
    (∀ (es : List Event) (w : Watch), onTorrentAdded.run es = some w →
      w.info.ConnectionCount = (Event.deltas es).sum) ∧
    (∀ cs : List ConnCall, ∃ w,
      onTorrentAdded.run (cs.map (fun c => Event.signal c.delta)) = some w ∧
      w.info.ConnectionCount = (cs.map ConnCall.delta).sum) ∧
    (∀ (cs : List ConnCall) (es : List Event) (w : Watch),
      Event.deltas es = cs.map ConnCall.delta → onTorrentAdded.run es = some w →
      cs.count ConnCall.AddConnection = cs.count ConnCall.RemoveConnection →
      w.info.ConnectionCount = 0) := by
  have hsum : ∀ (es : List Event) (w : Watch), onTorrentAdded.run es = some w →
      w.info.ConnectionCount = (Event.deltas es).sum := by
    intro es w h
    have := run_count es onTorrentAdded w h
    simpa [onTorrentAdded, NewTorrentConnectionInfo] using this
  refine ⟨hsum, ?_, ?_⟩
  · intro cs
    obtain ⟨w, hw⟩ := run_signals (cs.map ConnCall.delta) onTorrentAdded rfl rfl
    rw [List.map_map] at hw
    refine ⟨w, hw, ?_⟩
    have := hsum _ w hw
    rw [this, ← deltas_signals (cs.map ConnCall.delta), List.map_map]
  · intro cs es w hd hr hbal
    rw [hsum es w hr, hd, sum_deltas, hbal]
    ring

/-- C10 at a concrete input: remove, add, add, remove leaves the count at 0. -/
theorem C10_connection_balance_witness :
    onTorrentAdded.run [Event.signal (-1), Event.signal 1, Event.signal 1,
        Event.signal (-1)] = some threeSpawned ∧ threeSpawned.info.ConnectionCount = 0 :=
  ⟨rfl,
    C10_connection_balance.2.2
      [ConnCall.RemoveConnection, ConnCall.AddConnection, ConnCall.AddConnection,
        ConnCall.RemoveConnection]
      [Event.signal (-1), Event.signal 1, Event.signal 1, Event.signal (-1)] threeSpawned
      (by decide) (by rfl) (by decide)⟩

/-! ## The deadline map -/

theorem foldl_deadline_off (f g : Int → Int) (j : Int) : ∀ (L : List Int) (s : Swarm),
    j ∉ L.map f →
      (L.foldl (fun s i => s.Set_piece_deadline (f i) (g i) 0) s).deadline j = s.deadline j
  | [], _, _ => rfl
  | a :: L, s, h => by
    simp only [List.map_cons, List.mem_cons, not_or] at h
    simp only [List.foldl_cons]
    rw [foldl_deadline_off f g j L _ h.2]
    simp [Swarm.Set_piece_deadline, setAt, h.1]

theorem foldl_deadline_at (f g : Int → Int) (hf : ∀ a b, f a = f b → a = b) :
    ∀ (L : List Int) (s : Swarm) (i : Int), i ∈ L →
      (L.foldl (fun s i => s.Set_piece_deadline (f i) (g i) 0) s).deadline (f i) = some (g i)
  | a :: L, s, i, h => by
    simp only [List.foldl_cons]
    by_cases hi : i ∈ L
    · exact foldl_deadline_at f g hf L _ i hi
    · have hia : i = a := by
        rcases List.mem_cons.1 h with h | h
        · exact h
        · exact absurd h hi
      subst hia
      rw [foldl_deadline_off f g (f i) L _ ?_]
      · simp [Swarm.Set_piece_deadline, setAt]
      · intro hm
        obtain ⟨b, hb, e⟩ := List.mem_map.1 hm
        exact hi (hf _ _ e ▸ hb)

theorem SetInitialPriority_deadline (la : LookAhead) (tfi : TorrentFileInfo) (s : Swarm) (j : Int) :
    (tfi.SetInitialPriority la s).deadline j
      = if (tfi.startPiece ≤ j ∧ j ≤ tfi.startPiece + tfi.getLookAhead la true ∧ j ≤ tfi.endPiece) ∨
          j = tfi.endPiece then some 10000
        else s.deadline j := by
  simp only [SetInitialPriority, forLoop_le]
  by_cases he : j = tfi.endPiece
  · simp [Swarm.Set_piece_deadline, setAt, he]
  · have hset : ∀ t : Swarm, (t.Set_piece_deadline tfi.endPiece 10000 0).deadline j = t.deadline j := by
      intro t; simp [Swarm.Set_piece_deadline, setAt, he]
    rw [hset]
    by_cases hw : tfi.startPiece ≤ j ∧ j ≤ tfi.startPiece + tfi.getLookAhead la true ∧ j ≤ tfi.endPiece
    · have hm : j ∈ upTo tfi.startPiece (span tfi.startPiece
          (min (tfi.startPiece + tfi.getLookAhead la true) tfi.endPiece)) := by
        rw [mem_upTo]; simp only [span]; omega
      have := foldl_deadline_at (fun i => i) (fun _ => 10000) (fun a b h => h) _ s j hm
      simp only at this
      rw [this]; simp [hw]
    · have hm : j ∉ (upTo tfi.startPiece (span tfi.startPiece
          (min (tfi.startPiece + tfi.getLookAhead la true) tfi.endPiece))).map (fun i => i) := by
        rw [List.map_id', mem_upTo]; simp only [span]; omega
      have := foldl_deadline_off (fun i => i) (fun _ => 10000) j _ s hm
      simp only at this
      rw [this]; simp [hw, he]

theorem SetInitialPriority_priority (la : LookAhead) (tfi : TorrentFileInfo) (s : Swarm) :
    (tfi.SetInitialPriority la s).priority = s.priority := by
  simp only [SetInitialPriority, forLoop_le]
  exact (foldl_deadline (fun i => i) (fun _ => 10000) _ s).2.1

theorem critical_deadline (la : LookAhead) (tfi : TorrentFileInfo) (idx : Int) (s : Swarm) (i : Int)
    (h0 : 0 ≤ i) (h1 : i ≤ tfi.getLookAhead la false) (h2 : idx + i ≤ tfi.endPiece) :
    (waitForPiece.critical la tfi idx s).deadline (idx + i) = some (3000 + 1000 * i) := by
  simp only [waitForPiece.critical, forLoop_window]
  have hm : i ∈ upTo 0 (span 0 (min (tfi.getLookAhead la false) (tfi.endPiece - idx))) := by
    rw [mem_upTo]; simp only [span]; omega
  have := foldl_deadline_at (fun i => idx + i) (fun i => 3000 + i * 1000)
    (fun a b h => by simpa using h) _ s.Clear_piece_deadlines i hm
  simp only at this
  rw [this]
  congr 1
  ring

theorem poll_maps (avail : Avail) (idx : Int) : ∀ (fuel : Nat) (s : Swarm),
    (waitForPiece.poll avail idx fuel s).2.deadline = s.deadline ∧
    (waitForPiece.poll avail idx fuel s).2.priority = s.priority
  | 0, _ => ⟨rfl, rfl⟩
  | fuel + 1, s => by
    simp only [waitForPiece.poll]
    split
    · exact ⟨rfl, rfl⟩
    · exact poll_maps avail idx fuel _

/-! ## C11: the sign of ConnectionCount -/

theorem run_take : ∀ (es : List Event) (w w' : Watch) (n : Nat), w.run es = some w' →
    ∃ w'', w.run (es.take n) = some w''
  | _, w, _, 0, _ => ⟨w, by simp [Watch.run]⟩
  | [], w, _, n + 1, _ => ⟨w, by simp [Watch.run]⟩
  | e :: es, w, w', n + 1, h => by
    simp only [Watch.run, List.take_succ_cons] at h ⊢
    cases hstep : w.step e with
    | none => simp [hstep] at h
    | some w1 =>
      simp only [hstep] at h ⊢
      exact run_take es w1 w' n h

/-- C11 as stated fails: a `RemoveConnection` on a new record delivers `-1`, and the
loop leaves `ConnectionCount` at `-1`. -/
theorem C11_counterexample :
    ¬ (∀ (ds : List Int) (w : Watch), (∀ d ∈ ds, d = 1 ∨ d = -1) →
        onTorrentAdded.run (ds.map (fun d => Event.signal d)) = some w →
        0 ≤ w.info.ConnectionCount) := by
  intro h
  have := h [-1] _ (by simp) (by rfl)
  revert this
  decide

/-- C11, amended.  Take a sequence of events the watcher goes through from
`onTorrentAdded` on in which, at every point, the deltas received so far sum to at
least 0 (no `RemoveConnection` before its `AddConnection`).  Then after each event,
so after each signal consumed by the loop, the watcher is in a state with
`ConnectionCount >= 0`. -/
theorem C11_count_nonneg (es : List Event) (w : Watch) (hrun : onTorrentAdded.run es = some w)
    (hpre : ∀ n, 0 ≤ (Event.deltas (es.take n)).sum) (n : Nat) :
    ∃ w', onTorrentAdded.run (es.take n) = some w' ∧ 0 ≤ w'.info.ConnectionCount := by
  obtain ⟨w', hw'⟩ := run_take es onTorrentAdded w n hrun
  refine ⟨w', hw', ?_⟩
  have := run_count (es.take n) onTorrentAdded w' hw'
  rw [this]
  have h0 : onTorrentAdded.info.ConnectionCount = 0 := rfl
  rw [h0, zero_add]
  exact hpre n

/-- C11 at a concrete input: add, add, remove, remove; after the third signal the
count is 1. -/
theorem C11_count_nonneg_witness :
    ∃ w', onTorrentAdded.run ([Event.signal 1, Event.signal 1, Event.signal (-1),
        Event.signal (-1)].take 3) = some w' ∧ 0 ≤ w'.info.ConnectionCount :=
  C11_count_nonneg
    [Event.signal 1, Event.signal 1, Event.signal (-1), Event.signal (-1)]
    { info := { ConnectionCount := 0, Served := false, paused := false },
      watcherRunning := false, sending := false, watchers := [Timer.spawned], ops := [] }
    (by rfl)
    (fun n => by
      rcases n with _ | _ | _ | _ | _ | n <;> simp [Event.deltas])
    3

/-! ## C12: the paused flag and its log lines -/

theorem alertPump_paused (w : World) (hp : w.info.paused = true) : ∀ n : Nat,
    alertPump w (List.replicate n Alert.torrent_paused) = w
  | 0 => rfl
  | n + 1 => by
    have h1 : onTorrentPaused w = w := by simp [onTorrentPaused, hp]
    have ih := alertPump_paused w hp n
    simp only [alertPump, List.replicate_succ, List.foldl_cons, Alert.dispatch, h1] at ih ⊢
    exact ih

/-- C12.  `onTorrentPaused` appends the log line "Paused" exactly when `paused` was
false and leaves `paused` true; `onTorrentResumed` appends "Resumed" exactly when
`paused` was true and leaves `paused` false.  After a
`torrent_resumed` alert, any run of one or more `torrent_paused` alerts appends
exactly one "Paused", and the next `torrent_resumed` exactly one "Resumed".
Dispatching the same alert twice in a row gives the same state as dispatching it
once. -/
theorem C12_alert_idempotence :
    (∀ w : World, (onTorrentPaused w).logs = w.logs ++ (if w.info.paused then [] else ["Paused"]) ∧
      (onTorrentPaused w).info.paused = true) ∧
    (∀ w : World, (onTorrentResumed w).logs = w.logs ++ (if w.info.paused then ["Resumed"] else []) ∧
      (onTorrentResumed w).info.paused = false) ∧
    (∀ (w : World) (n : Nat),
      (alertPump (onTorrentResumed w) (List.replicate (n + 1) Alert.torrent_paused)).logs
        = (onTorrentResumed w).logs ++ ["Paused"] ∧
      (alertPump (onTorrentResumed w)
          (List.replicate (n + 1) Alert.torrent_paused ++ [Alert.torrent_resumed])).logs
        = (onTorrentResumed w).logs ++ ["Paused", "Resumed"]) ∧
    (∀ (w : World) (a : Alert), Alert.dispatch (Alert.dispatch w a) a = Alert.dispatch w a) := by
  have hP : ∀ w : World,
      (onTorrentPaused w).logs = w.logs ++ (if w.info.paused then [] else ["Paused"]) ∧
      (onTorrentPaused w).info.paused = true := by
    intro w
    cases hp : w.info.paused <;> simp [onTorrentPaused, hp]
  have hR : ∀ w : World,
      (onTorrentResumed w).logs = w.logs ++ (if w.info.paused then ["Resumed"] else []) ∧
      (onTorrentResumed w).info.paused = false := by
    intro w
    cases hp : w.info.paused <;> simp [onTorrentResumed, hp]
  refine ⟨hP, hR, ?_, ?_⟩
  · intro w n
    have hr : (onTorrentResumed w).info.paused = false := (hR w).2
    have h1 : (onTorrentPaused (onTorrentResumed w)).info.paused = true := by
      simp [onTorrentPaused, hr]
    have h2 : (onTorrentPaused (onTorrentResumed w)).logs = (onTorrentResumed w).logs ++ ["Paused"] := by
      simp [onTorrentPaused, hr]
    have h3 := alertPump_paused (onTorrentPaused (onTorrentResumed w)) h1 n
    have h4 : alertPump (onTorrentResumed w) (List.replicate (n + 1) Alert.torrent_paused)
        = onTorrentPaused (onTorrentResumed w) := by
      simp only [alertPump, List.replicate_succ, List.foldl_cons, Alert.dispatch] at h3 ⊢
      exact h3
    constructor
    · rw [h4, h2]
    · have h5 : alertPump (onTorrentResumed w)
            (List.replicate (n + 1) Alert.torrent_paused ++ [Alert.torrent_resumed])
          = onTorrentResumed (onTorrentPaused (onTorrentResumed w)) := by
        simp only [alertPump, List.foldl_append] at h4 ⊢
        rw [h4]; rfl
      rw [h5, (hR _).1, h1, h2]
      simp
  · intro w a
    cases a
    · cases hp : w.info.paused <;> simp [Alert.dispatch, onTorrentPaused, hp]
    · cases hp : w.info.paused <;> simp [Alert.dispatch, onTorrentResumed, hp]

/-! ## C13: SetInitialPriority is idempotent on the maps -/

/-- C13.  Calling `SetInitialPriority` `N >= 1` times in a row leaves the same
piece-deadline map and the same piece-priority map on the handle as calling it once
(the priority map is the one from before the calls). -/
theorem C13_initial_priority_idempotent (la : LookAhead) (tfi : TorrentFileInfo) (s : Swarm)
    (N : Nat) (hN : 1 ≤ N) :
    ((tfi.SetInitialPriority la)^[N] s).deadline = (tfi.SetInitialPriority la s).deadline ∧
    ((tfi.SetInitialPriority la)^[N] s).priority = (tfi.SetInitialPriority la s).priority ∧
    (tfi.SetInitialPriority la s).priority = s.priority := by
  refine ⟨?_, ?_, SetInitialPriority_priority la tfi s⟩
  · induction N with
    | zero => omega
    | succ n ih =>
      rcases Nat.eq_zero_or_pos n with h0 | hpos
      · subst h0; rfl
      · have ih' := ih hpos
        rw [Function.iterate_succ_apply']
        funext j
        rw [SetInitialPriority_deadline, ih', SetInitialPriority_deadline]
        split <;> rfl
  · induction N with
    | zero => omega
    | succ n ih =>
      rcases Nat.eq_zero_or_pos n with h0 | hpos
      · subst h0; rfl
      · rw [Function.iterate_succ_apply', SetInitialPriority_priority, ih hpos]

/-- C13 at a concrete input: three calls on the 200 MiB file. -/
theorem C13_initial_priority_idempotent_witness :
    ((bigView.SetInitialPriority ratio05)^[3] freshSwarm).deadline
      = (bigView.SetInitialPriority ratio05 freshSwarm).deadline :=
  (C13_initial_priority_idempotent ratio05 bigView freshSwarm 3 (by decide)).1

/-! ## C15: the deadline in force after a time-critical wait -/

/-- C15.  When piece `idx` is not available on entry, then however long
`waitForPiece(idx, true)` polls, the deadline it leaves on a ladder piece `idx + i`
(`0 <= i <= look_ahead_running`, `idx + i <= endPiece`) is 10000 ms when the piece
lies in `startPiece .. min(startPiece + k, endPiece)` (`k = getLookAhead(true)`) or is
`endPiece`, and `3000 + 1000*i` ms otherwise.  For `i = 0`: a seek into the header
window or onto the final piece ends with 10000 ms, not 3000 ms, on the requested
piece. -/
theorem C15_final_deadline (avail : Avail) (la : LookAhead) (tfi : TorrentFileInfo) (s : Swarm)
    (idx : Int) (fuel : Nat) (i : Int) (h : avail s.clock idx = false)
    (h0 : 0 ≤ i) (h1 : i ≤ tfi.getLookAhead la false) (h2 : idx + i ≤ tfi.endPiece) :
    (tfi.waitForPiece avail la fuel s idx true).2.deadline (idx + i)
      = if (tfi.startPiece ≤ idx + i ∧
            idx + i ≤ min (tfi.startPiece + tfi.getLookAhead la true) tfi.endPiece) ∨
          idx + i = tfi.endPiece then some 10000
        else some (3000 + 1000 * i) := by
  have hr : (s.Have_piece avail idx).1 = false := h
  simp only [waitForPiece, hr, Bool.not_false, if_true]
  rw [(poll_maps avail idx fuel _).1, SetInitialPriority_deadline,
    critical_deadline la tfi idx _ i h0 h1 h2]
  have e : (tfi.startPiece ≤ idx + i ∧ idx + i ≤ tfi.startPiece + tfi.getLookAhead la true ∧
        idx + i ≤ tfi.endPiece) ↔
      (tfi.startPiece ≤ idx + i ∧
        idx + i ≤ min (tfi.startPiece + tfi.getLookAhead la true) tfi.endPiece) := by
    constructor
    · intro h; exact ⟨h.1, by omega⟩
    · intro h; exact ⟨h.1, by omega, by omega⟩
  simp only [e]

set_option maxRecDepth 20000 in
/-- C15 at concrete inputs: on the 200 MiB file (header window 0 to 10, running
look-ahead 1) a time-critical wait on piece 5 ends with 10000 ms on piece 5, while
one on piece 150 ends with 3000 ms on piece 150 and 4000 ms on piece 151. -/
theorem C15_final_deadline_witness :
    (bigView.waitForPiece atOnce ratio05 1 freshSwarm 5 true).2.deadline (5 + 0) = some 10000 ∧
    (bigView.waitForPiece atOnce ratio05 1 freshSwarm 150 true).2.deadline (150 + 0) = some 3000 ∧
    (bigView.waitForPiece atOnce ratio05 1 freshSwarm 150 true).2.deadline (150 + 1) = some 4000 :=
  ⟨(C15_final_deadline atOnce ratio05 bigView freshSwarm 5 1 0 (by decide) (by decide)
      (by decide) (by decide)).trans (by decide),
   (C15_final_deadline atOnce ratio05 bigView freshSwarm 150 1 0 (by decide) (by decide)
      (by decide) (by decide)).trans (by decide),
   (C15_final_deadline atOnce ratio05 bigView freshSwarm 150 1 1 (by decide) (by decide)
      (by decide) (by decide)).trans (by decide)⟩

/-! ## C14: the Served flag and the "Serving" event -/

theorem Read_loop_bytesRead (avail : Avail) (la : LookAhead) (pollFuel : Nat) :
    ∀ (fuel : Nat) (tfi : TorrentFileInfo) (s : Swarm) (data : List Nat) (total size : Int)
      (x : List Nat × Int × TorrentFileInfo × Swarm),
      (Read.loop avail la pollFuel fuel tfi s data total size = some (Sum.inl x) ∨
        Read.loop avail la pollFuel fuel tfi s data total size = some (Sum.inr x)) →
      x.2.2.1.bytesRead = tfi.bytesRead
  | 0, _, _, _, _, _, _, h => by simp [Read.loop] at h
  | fuel + 1, tfi, s, data, total, size, x, h => by
    simp only [Read.loop] at h
    by_cases hs : size > 0
    · simp only [hs, if_true] at h
      generalize tfi.waitForPiece avail la pollFuel s
        (tfi.GetPieceIndexFromOffset (OsFile.SeekCur tfi.file + min size tfi.pieceLength)) false
        = wr at h
      obtain ⟨o, s'⟩ := wr
      cases o with
      | none => simp at h
      | some b =>
        simp only at h
        by_cases hf : (OsFile.Read tfi.file (min size tfi.pieceLength)).2.1 = true
        · simp only [hf, if_true, Option.some.injEq, Sum.inl.injEq] at h
          rcases h with h | h
          · subst h; rfl
          · cases h
        · simp only [hf, Bool.false_eq_true, if_false] at h
          have ih := Read_loop_bytesRead avail la pollFuel fuel _ _ _ _ _ x h
          exact ih
    · simp only [hs, if_false, Option.some.injEq, Sum.inr.injEq] at h
      rcases h with h | h
      · cases h
      · subst h; rfl

/-- What one successful `Read` does to the counter, the flag and the events. -/
theorem Read_step (avail : Avail) (la : LookAhead) (pollFuel : Nat) (tfi : TorrentFileInfo)
    (w : World) (n : Nat) (r : ReadResult)
    (h : tfi.Read avail la pollFuel w n = some r) (hok : r.failed = false) :
    r.tfi.bytesRead = tfi.bytesRead + r.totalRead ∧
    r.world.info.Served = (w.info.Served || decide (10 * 1024 * 1024 < r.tfi.bytesRead)) ∧
    r.world.events
      = w.events ++ (if w.info.Served = false ∧ 10 * 1024 * 1024 < r.tfi.bytesRead
          then ["Serving"] else []) := by
  unfold TorrentFileInfo.Read at h
  cases hl : Read.loop avail la pollFuel (n + 1) tfi w.swarm [] 0 n with
  | none => simp [hl] at h
  | some out =>
    cases out with
    | inl x =>
      obtain ⟨d, t, f, s⟩ := x
      simp only [hl, Option.some.injEq] at h
      subst h
      simp at hok
    | inr x =>
      have hb := Read_loop_bytesRead avail la pollFuel (n + 1) tfi w.swarm [] 0 n x (Or.inr hl)
      obtain ⟨d, t, f, s⟩ := x
      simp only at hb
      simp only [hl] at h
      by_cases hc : 10 * 1024 * 1024 < f.bytesRead + t
      · have hc' : (10485760 : Int) < tfi.bytesRead + t := by rw [← hb]; exact hc
        cases hsv : w.info.Served
        · simp only [gt_iff_lt, hc, decide_True, hsv, Bool.not_false, Bool.and_self, if_true,
            Option.some.injEq] at h
          subst h
          simp [hb, hc']
        · simp only [gt_iff_lt, hc, decide_True, hsv, Bool.not_true, Bool.and_false,
            Bool.false_eq_true, if_false, Option.some.injEq] at h
          subst h
          simp [hb, hsv]
      · have hc' : ¬ (10485760 : Int) < tfi.bytesRead + t := by rw [← hb]; exact hc
        simp only [gt_iff_lt, hc, decide_False, Bool.false_and, Bool.false_eq_true, if_false,
          Option.some.injEq] at h
        subst h
        simp [hb, hc']

theorem readAll_facts (avail : Avail) (la : LookAhead) (pollFuel : Nat) :
    ∀ (calls : List (Nat × Nat)) (views : List TorrentFileInfo) (w : World)
      (tr : List (World × ReadResult)), readAll avail la pollFuel calls views w = some tr →
      (∀ p, tr.get? 0 = some p → p.1 = w) ∧
      (∀ i p q, tr.get? i = some p → tr.get? (i + 1) = some q → q.1 = p.2.world) ∧
      (∀ p ∈ tr, ∃ tfi n, TorrentFileInfo.Read avail la pollFuel tfi p.1 n = some p.2 ∧
        p.2.failed = false)
  | [], _, _, tr, h => by
    simp only [readAll, Option.some.injEq] at h
    subst h
    simp
  | c :: cs, views, w, tr, h => by
    unfold readAll at h
    split at h
    · cases h
    · rename_i tfi hv
      split at h
      · cases h
      · rename_i r hr
        split at h
        · cases h
        · rename_i hf
          have hf' : r.failed = false := by simpa using hf
          split at h
          · cases h
          · rename_i tr' hrest
            simp only [Option.some.injEq] at h
            subst h
            obtain ⟨ih1, ih2, ih3⟩ := readAll_facts avail la pollFuel cs _ _ tr' hrest
            refine ⟨?_, ?_, ?_⟩
            · intro p hp
              simp only [List.get?_cons_zero, Option.some.injEq] at hp
              subst hp; rfl
            · intro i p q hp hq
              cases i with
              | zero =>
                simp only [List.get?_cons_zero, Option.some.injEq] at hp
                subst hp
                simp only [List.get?_cons_succ] at hq
                exact ih1 q hq
              | succ i =>
                simp only [List.get?_cons_succ] at hp hq
                exact ih2 i p q hp hq
            · intro p hp
              rcases List.mem_cons.1 hp with rfl | hp
              · exact ⟨tfi, c.2, hr, hf'⟩
              · exact ih3 p hp

/-- C14.  Along any sequence of successful `Read` calls on the views of one torrent,
each call starting in the process state the previous one left: `Served` is `true`
after a call whenever it was `true` before it, and stays `true` for every later
call; a call appends either exactly one "Serving" event or nothing; when the record
starts with `Served` false, the call that emits is the first one that leaves the
counter `bytesRead` of its view above `10*1024*1024`, every other call emits
nothing, and `Served` is `true` from that call on; when the record starts with
`Served` true, no call emits. -/
theorem C14_serving_once (avail : Avail) (la : LookAhead) (pollFuel : Nat)
    (calls : List (Nat × Nat)) (views : List TorrentFileInfo) (w : World)
    (tr : List (World × ReadResult)) (h : readAll avail la pollFuel calls views w = some tr) :
    (∀ p, tr.get? 0 = some p → p.1 = w) ∧
    (∀ i p q, tr.get? i = some p → tr.get? (i + 1) = some q → q.1 = p.2.world) ∧
    (∀ p ∈ tr, p.1.info.Served = true → p.2.world.info.Served = true) ∧
    (∀ i j p q, i ≤ j → tr.get? i = some p → tr.get? j = some q →
      p.2.world.info.Served = true → q.2.world.info.Served = true) ∧
    (∀ p ∈ tr, emitted p ∨ p.2.world.events = p.1.events) ∧
    (∀ p ∈ tr, emitted p → p.2.world.info.Served = true) ∧
    (w.info.Served = false → ∀ i p, tr.get? i = some p →
      (emitted p ↔ crossed p ∧ ∀ j q, j < i → tr.get? j = some q → ¬ crossed q)) ∧
    (w.info.Served = true → ∀ p ∈ tr, ¬ emitted p) ∧
    (∀ i j p q, i < j → tr.get? i = some p → tr.get? j = some q → emitted p → ¬ emitted q) := by
  obtain ⟨hhead, hchain, hmem⟩ := readAll_facts avail la pollFuel calls views w tr h
  -- what one call does, in terms of `crossed` and `emitted`
  have hstep : ∀ p ∈ tr,
      (p.2.world.info.Served = true ↔ p.1.info.Served = true ∨ crossed p) ∧
      (emitted p ↔ p.1.info.Served = false ∧ crossed p) ∧
      (emitted p ∨ p.2.world.events = p.1.events) := by
    intro p hp
    obtain ⟨tfi, n, hr, hok⟩ := hmem p hp
    obtain ⟨-, h2, h3⟩ := Read_step avail la pollFuel tfi p.1 n p.2 hr hok
    refine ⟨?_, ?_, ?_⟩
    · unfold crossed
      rw [h2]
      simp only [Bool.or_eq_true, decide_eq_true_eq]
    · unfold emitted crossed
      rw [h3]
      by_cases hc : p.1.info.Served = false ∧ 10 * 1024 * 1024 < p.2.tfi.bytesRead
      · simp only [hc, and_self, if_true]
      · simp only [hc, if_false, List.append_nil, iff_false]
        intro habs
        have := congrArg List.length habs
        simp at this
    · unfold emitted
      rw [h3]
      by_cases hc : p.1.info.Served = false ∧ 10 * 1024 * 1024 < p.2.tfi.bytesRead
      · left; simp only [hc, and_self, if_true]
      · right; simp only [hc, if_false, List.append_nil]
  have hmemget : ∀ i p, tr.get? i = some p → p ∈ tr := fun i p hp => List.get?_mem hp
  -- the flag before call `i`
  have hbefore : ∀ i p, tr.get? i = some p →
      (p.1.info.Served = true ↔
        w.info.Served = true ∨ ∃ j q, j < i ∧ tr.get? j = some q ∧ crossed q) := by
    intro i
    induction i with
    | zero =>
      intro p hp
      rw [hhead p hp]
      constructor
      · intro h; exact Or.inl h
      · rintro (h | ⟨j, q, hj, -, -⟩)
        · exact h
        · omega
    | succ i ih =>
      intro p hp
      have hlt : i < tr.length := by
        have := (List.get?_eq_some.1 hp).1
        omega
      obtain ⟨q, hq⟩ : ∃ q, tr.get? i = some q := ⟨tr.get ⟨i, hlt⟩, List.get?_eq_get hlt⟩
      rw [hchain i q p hq hp, (hstep q (hmemget i q hq)).1, ih q hq]
      constructor
      · rintro ((h | ⟨j, r, hj, hr, hc⟩) | hc)
        · exact Or.inl h
        · exact Or.inr ⟨j, r, by omega, hr, hc⟩
        · exact Or.inr ⟨i, q, by omega, hq, hc⟩
      · rintro (h | ⟨j, r, hj, hr, hc⟩)
        · exact Or.inl (Or.inl h)
        · rcases Nat.lt_succ_iff_lt_or_eq.1 hj with hlt' | heq
          · exact Or.inl (Or.inr ⟨j, r, hlt', hr, hc⟩)
          · subst heq
            rw [hq] at hr
            cases hr
            exact Or.inr hc
  have hafter : ∀ i p, tr.get? i = some p →
      (p.2.world.info.Served = true ↔
        w.info.Served = true ∨ ∃ j q, j ≤ i ∧ tr.get? j = some q ∧ crossed q) := by
    intro i p hp
    rw [(hstep p (hmemget i p hp)).1, hbefore i p hp]
    constructor
    · rintro ((h | ⟨j, r, hj, hr, hc⟩) | hc)
      · exact Or.inl h
      · exact Or.inr ⟨j, r, by omega, hr, hc⟩
      · exact Or.inr ⟨i, p, le_refl _, hp, hc⟩
    · rintro (h | ⟨j, r, hj, hr, hc⟩)
      · exact Or.inl (Or.inl h)
      · rcases Nat.lt_or_eq_of_le hj with hlt' | heq
        · exact Or.inl (Or.inr ⟨j, r, hlt', hr, hc⟩)
        · subst heq
          rw [hp] at hr
          cases hr
          exact Or.inr hc
  have hfalse : ∀ b : Bool, b = false ↔ ¬ b = true := by decide
  refine ⟨hhead, hchain, ?_, ?_, ?_, ?_, ?_, ?_, ?_⟩
  · intro p hp hs
    exact (hstep p hp).1.2 (Or.inl hs)
  · intro i j p q hij hp hq hs
    rw [hafter j q hq]
    rcases (hafter i p hp).1 hs with h | ⟨k, r, hk, hr, hc⟩
    · exact Or.inl h
    · exact Or.inr ⟨k, r, by omega, hr, hc⟩
  · intro p hp
    exact (hstep p hp).2.2
  · intro p hp he
    exact (hstep p hp).1.2 (Or.inr ((hstep p hp).2.1.1 he).2)
  · intro hw i p hp
    rw [(hstep p (hmemget i p hp)).2.1, hfalse, hbefore i p hp]
    constructor
    · rintro ⟨hn, hc⟩
      refine ⟨hc, fun j q hj hq hcq => hn (Or.inr ⟨j, q, hj, hq, hcq⟩)⟩
    · rintro ⟨hc, hn⟩
      refine ⟨?_, hc⟩
      rintro (h | ⟨j, q, hj, hq, hcq⟩)
      · rw [hw] at h; cases h
      · exact hn j q hj hq hcq
  · intro hw p hp he
    obtain ⟨i, hi⟩ := List.get?_of_mem hp
    have h1 := ((hstep p hp).2.1.1 he).1
    have h2 := (hbefore i p hi).2 (Or.inl hw)
    rw [h1] at h2
    cases h2
  · intro i j p q hij hp hq hep heq
    have h1 := ((hstep q (hmemget j q hq)).2.1.1 heq).1
    have h2 := ((hstep p (hmemget i p hp)).2.1.1 hep).2
    have h3 := (hbefore j q hq).2 (Or.inr ⟨i, p, hij, hp, h2⟩)
    rw [h1] at h3
    cases h3

/-- C14 at a concrete input: of four successful reads only the second, which takes
its view from 10 MiB - 2 to 10 MiB + 2 bytes, emits "Serving"; `Served` is true from
then on. -/
theorem C14_serving_once_witness :
    servingTrace.map (fun p => (p.1.info.Served, p.2.tfi.bytesRead, p.2.world.events,
        p.2.world.info.Served))
      = [(false, 4, [], false), (false, 10485762, ["Serving"], true),
         (true, 10485766, ["Serving"], true), (true, 8, ["Serving"], true)] ∧
    (∀ i j p q, i < j → servingTrace.get? i = some p → servingTrace.get? j = some q →
      emitted p → ¬ emitted q) :=
  ⟨by decide,
   (C14_serving_once seeded ratio05 0 [(1, 4), (0, 4), (0, 4), (1, 4)] twoViews freshWorld
      servingTrace (by rfl)).2.2.2.2.2.2.2.2⟩

end ScrapMagnet
